import Mathlib

/-!
# ofpromq: the OpenFaaS Prometheus querent

A shallow embedding of `dfaasagent/agent/infogath/ofpromq/ofpromq.go`.

* Go maps with string keys are association lists holding one pair per key
  (`GoMap`); only `get`, `len` and the key set are observable, the order of the
  pairs is not.
* A Go function returning `(map, error)` returns a `MapErr`; a run-time panic is
  the other constructor of `Outcome`.
* `client.Query` (one HTTP round trip), the JSON text parser, `strconv.ParseFloat`
  and `math.NaN` are fields of `Runtime`: they are outside the package.
* `strconv.Atoi` is embedded from the Go standard library, with the size of the
  platform `int` as a parameter.
* The response types are not in `ofpromq.go`: their fields are those the source
  reads, their JSON names and what a missing label does are modelled from the
  specification, and values are stored as `encoding/json` stores them.
-/

namespace Ofpromq

/-! ## Go values -/

/-- Go `error` values. `Wrap` is `errors.Wrap` of `github.com/pkg/errors`.
`UnmarshalTypeError` is `*json.UnmarshalTypeError` with its description of the
JSON value and the path of JSON field names to it (the Go type it also names
belongs to the declarations that are not in `ofpromq.go`). `MissingLabel` is the
decode-shape error the specification gives a result item without an expected
label. -/
inductive GoError where
  | base (msg : String)
  | Wrap (cause : GoError) (message : String)
  | UnmarshalTypeError (Value : String) (Field : String)
  | MissingLabel (label : String)
  deriving DecidableEq, Repr

/-- The run-time panics the package can raise. -/
inductive Panic where
  | indexOutOfRange (index : Nat) (length : Nat)
  | interfaceConversion
  deriving DecidableEq, Repr

/-- Result of running Go code: it returns a value or it panics. -/
inductive Outcome (α : Type) where
  | returns (a : α)
  | panics (p : Panic)
  deriving DecidableEq, Repr

/-- The pair `(map, error)` a query function returns; `none` is Go's `nil`. -/
structure MapErr (M : Type) where
  result : Option M
  err : Option GoError
  deriving DecidableEq, Repr

/-- A Go map with string keys: an association list with one pair per key. -/
def GoMap (V : Type) : Type := List (String × V)

instance (V : Type) [DecidableEq V] : DecidableEq (GoMap V) :=
  inferInstanceAs (DecidableEq (List (String × V)))

namespace GoMap

variable {V : Type}

/-- The map literal `map[string]V{}` and `make(map[string]V)`. -/
def empty : GoMap V := []

/-- The lookup `m[k]`, with `none` when the key is absent. -/
def get : GoMap V → String → Option V
  | [], _ => none
  | (k', v) :: m, k => if k' = k then some v else get m k

/-- The assignment `m[k] = v`. -/
def set (m : GoMap V) (k : String) (v : V) : GoMap V :=
  (k, v) :: m.filter (fun p => decide (p.1 ≠ k))

/-- The keys of the map. -/
def keys (m : GoMap V) : List String := m.map Prod.fst

/-- The builtin `len(m)`. -/
def len (m : GoMap V) : Nat := m.length

end GoMap

/-- JSON values; after decoding into `interface{}` they are the Go values
`nil`, `bool`, `float64`, `string`, `[]interface{}` and `map[string]interface{}`.
A number carries its literal text. -/
inductive JSON where
  | null
  | bool (b : Bool)
  | num (lit : String)
  | str (s : String)
  | arr (elems : List JSON)
  | obj (members : List (String × JSON))

/-! ## The response types

The declarations of `afetResponse`, `invocRateResponse`, `serviceCountResponse`,
`cpuUsageResponse` and `ramUsageResponse` are not in `ofpromq.go`. -/

/-- Modelled from the spec: the label set of an AFET result item; the source
reads `item.Metric.FunctionName` as a `string` map key. -/
structure afetMetric where
  FunctionName : String
  deriving DecidableEq, Repr

/-- Modelled from the spec: the label set of an invocation-rate result item. -/
structure invocRateMetric where
  FunctionName : String
  Code : String
  deriving DecidableEq, Repr

/-- Modelled from the spec: the label set of a service-count result item. -/
structure serviceCountMetric where
  FunctionName : String
  deriving DecidableEq, Repr

/-- Modelled from the spec: the label set of a CPU-usage result item. -/
structure cpuUsageMetric where
  Instance : String
  deriving DecidableEq, Repr

/-- Modelled from the spec: the label set of a RAM-usage result item. -/
structure ramUsageMetric where
  Instance : String
  deriving DecidableEq, Repr

/-- Modelled from the spec: one element of `Data.Result`; the source indexes
`item.Value` and asserts its element to `string`, so the elements are
`interface{}` values. -/
structure ResultItem (M : Type) where
  Metric : M
  Value : List JSON

/-- Modelled from the spec: the `Data` member of a response. -/
structure ResponseData (M : Type) where
  Result : List (ResultItem M)

/-- Modelled from the spec: a decoded response envelope. -/
structure Response (M : Type) where
  Data : ResponseData M

abbrev afetResponse := Response afetMetric
abbrev invocRateResponse := Response invocRateMetric
abbrev serviceCountResponse := Response serviceCountMetric
abbrev cpuUsageResponse := Response cpuUsageMetric
abbrev ramUsageResponse := Response ramUsageMetric

/-! ## What the package calls -/

/-- The capabilities outside the package, for a fixed client: `Query` is
`client.Query`, `jsonParse` reads JSON text, `ParseFloat s` is
`strconv.ParseFloat(s, 64)` and `NaN` is `math.NaN()`. `F` is `float64`. -/
structure Runtime (F : Type) where
  Query : String → Except GoError String
  jsonParse : String → Except GoError JSON
  ParseFloat : String → Except GoError F
  NaN : F

/-- The message every query function wraps a decoding failure with. -/
def deserializeMsg : String :=
  "Error while deserializing a JSON string from the Prometheus API endpoint"

/-- The index expression `xs[i]` on a slice. -/
def index (xs : List JSON) (i : Nat) : Outcome JSON :=
  match xs.get? i with
  | some v => .returns v
  | none => .panics (.indexOutOfRange i xs.length)

/-- The type assertion `v.(string)`. -/
def assertString : JSON → Outcome String
  | .str s => .returns s
  | _ => .panics .interfaceConversion

/-- The expression `item.Value[1].(string)`. -/
def valueString (Value : List JSON) : Outcome String :=
  match index Value 1 with
  | .panics p => .panics p
  | .returns v => assertString v

/-- The statements `num, err := strconv.ParseFloat(s, 64); if err != nil { num = math.NaN() }`. -/
def floatOrNaN {F : Type} (rt : Runtime F) (s : String) : F :=
  match rt.ParseFloat s with
  | .ok num => num
  | .error _ => rt.NaN

/-! ## strconv.Atoi

Go strings are byte sequences; the functions below run over the bytes of the
string, each a `Nat` below 256. `intSize` is the size in bits of the platform
`int` (32 or 64). -/

/-- The UTF-8 encoding of one character. -/
def utf8Bytes (c : Char) : List Nat :=
  let n := c.toNat
  if n < 128 then [n]
  else if n < 2048 then [192 + n / 64, 128 + n % 64]
  else if n < 65536 then [224 + n / 4096, 128 + n / 64 % 64, 128 + n % 64]
  else [240 + n / 262144, 128 + n / 4096 % 64, 128 + n / 64 % 64, 128 + n % 64]

/-- The bytes `[]byte(s)` of a Go string. -/
def goBytes (s : String) : List Nat := s.data.flatMap utf8Bytes

/-- The two kinds of `*strconv.NumError` that base-10 parsing reports. -/
inductive NumErr where
  | ErrSyntax
  | ErrRange
  deriving DecidableEq, Repr

/-- The helper `lower(c)` of package strconv: `c | ('x' - 'X')`. -/
def lower (c : Nat) : Nat := c ||| 32

/-- The digit value the loop of `ParseUint` gives a byte, if any. -/
def digitOf (c : Nat) : Option Nat :=
  if 48 ≤ c ∧ c ≤ 57 then some (c - 48)
  else if 97 ≤ lower c ∧ lower c ≤ 122 then some (lower c - 97 + 10)
  else none

/-- The `for` loop of `strconv.ParseUint` at base 10: `cutoff` is
`maxUint64/10 + 1`, `n` is a `uint64`. -/
def ParseUint.loop (maxVal : Nat) : List Nat → Nat → Nat × Option NumErr
  | [], n => (n, none)
  | c :: rest, n =>
    match digitOf c with
    | none => (0, some .ErrSyntax)
    | some d =>
      if d ≥ 10 then (0, some .ErrSyntax)
      else if n ≥ (2 ^ 64 - 1) / 10 + 1 then (maxVal, some .ErrRange)
      else
        let n10 := (n * 10) % 2 ^ 64
        let n1 := (n10 + d) % 2 ^ 64
        if n1 < n10 ∨ n1 > maxVal then (maxVal, some .ErrRange)
        else loop maxVal rest n1

/-- The call `strconv.ParseUint(s, 10, 0)`; `maxVal` is
`uint64(1)<<uint(bitSize) - 1` in `uint64` arithmetic. -/
def ParseUint (intSize : Nat) (s : List Nat) : Nat × Option NumErr :=
  if s = [] then (0, some .ErrSyntax)
  else
    let maxVal := (2 ^ intSize % 2 ^ 64 + 2 ^ 64 - 1) % 2 ^ 64
    ParseUint.loop maxVal s 0

/-- The conversion `int64(un)` of a `uint64`. -/
def toInt64 (un : Nat) : Int :=
  if un % 2 ^ 64 < 2 ^ 63 then (un % 2 ^ 64 : Nat) else (un % 2 ^ 64 : Nat) - 2 ^ 64

/-- Negation of an `int64`. -/
def negInt64 (n : Int) : Int := (-n + 2 ^ 63) % 2 ^ 64 - 2 ^ 63

/-- The call `strconv.ParseInt(s, 10, 0)`. -/
def ParseInt (intSize : Nat) (s0 : List Nat) : Int × Option NumErr :=
  if s0 = [] then (0, some .ErrSyntax)
  else
    let neg : Prop := s0.head? = some 45
    let s := if s0.head? = some 43 ∨ s0.head? = some 45 then s0.tail else s0
    let r := ParseUint intSize s
    let un := r.1
    let err := r.2
    if err = some .ErrSyntax then (0, err)
    else
      let cutoff := 2 ^ (intSize - 1)
      if ¬ neg ∧ un ≥ cutoff then (((cutoff - 1 : Nat) : Int), some .ErrRange)
      else if neg ∧ un > cutoff then (-((cutoff : Nat) : Int), some .ErrRange)
      else
        let n := toInt64 un
        (if neg then negInt64 n else n, none)

/-- The loop of the fast path of `strconv.Atoi`; `ch -= '0'` is byte arithmetic.
The accumulator stays below `10 ^ 18`, inside the platform `int`. -/
def Atoi.fastLoop : List Nat → Int → Option Int
  | [], n => some n
  | ch :: rest, n =>
    let ch1 := (ch + 256 - 48) % 256
    if ch1 > 9 then none else fastLoop rest (n * 10 + ch1)

/-- The conversion `int(i64)` to the platform `int`. -/
def toInt (intSize : Nat) (i64 : Int) : Int :=
  (i64 + 2 ^ (intSize - 1)) % 2 ^ intSize - 2 ^ (intSize - 1)

/-- The function `strconv.Atoi`: the number it returns and its error (`none` is `nil`). -/
def Atoi (intSize : Nat) (s0 : List Nat) : Int × Option NumErr :=
  let sLen := s0.length
  if (intSize = 32 ∧ 0 < sLen ∧ sLen < 10) ∨ (intSize = 64 ∧ 0 < sLen ∧ sLen < 19) then
    let s := if s0.head? = some 45 ∨ s0.head? = some 43 then s0.tail else s0
    if s.length < 1 then (0, some .ErrSyntax)
    else
      match Atoi.fastLoop s 0 with
      | none => (0, some .ErrSyntax)
      | some n => (if s0.head? = some 45 then -n else n, none)
  else
    let r := ParseInt intSize s0
    (toInt intSize r.1, r.2)

/-! ## Decoding with encoding/json

`json.Unmarshal` checks that the text is JSON (`Runtime.jsonParse`) and then
stores the value into the target: a member of an object goes to the field whose
name matches its key, `null` leaves the target as it is (a slice becomes `nil`),
a member that matches no field is skipped, a field without a member keeps the
value it has, a JSON array is stored into a slice element by element over the
elements the slice already holds, and a value of the wrong kind is an
`UnmarshalTypeError`. A member that occurs again is stored again, over what the
earlier occurrence left.

The response types are not in `ofpromq.go`; what decoding does with a result item
that lacks an expected label is taken from the specification: it is a
decode-shape error. -/

/-- The description of a JSON value in an `UnmarshalTypeError`. -/
def JSON.kind : JSON → String
  | .null => "null"
  | .bool _ => "bool"
  | .num _ => "number"
  | .str _ => "string"
  | .arr _ => "array"
  | .obj _ => "object"

/-- The error `*json.UnmarshalTypeError` for a value of the wrong kind, at the
place where it is met. -/
def unmarshalTypeError (j : JSON) : GoError :=
  .UnmarshalTypeError j.kind ""

/-- The error of a field, seen from the struct that holds the field: the name of
the field comes in front of the path. -/
def inField (name : String) : GoError → GoError
  | .UnmarshalTypeError v f => .UnmarshalTypeError v (if f = "" then name else name ++ "." ++ f)
  | e => e

/-- Decoding into the field `name` of a struct. -/
def atField {T : Type} (name : String) : Except GoError T → Except GoError T
  | .error e => .error (inField name e)
  | .ok x => .ok x

/-- Case folding of one character of a member key, exact on the characters that
fold to an ASCII letter. -/
def foldRune (c : Char) : Char :=
  if 'a' ≤ c ∧ c ≤ 'z' then Char.ofNat (c.toNat - 32)
  else if c = Char.ofNat 383 then 'S'
  else if c = Char.ofNat 8490 then 'K'
  else c

/-- Whether a member key selects the field with the given (ASCII) JSON name:
equal up to case folding. -/
def fieldMatch (key name : String) : Bool :=
  key.data.map foldRune = name.data.map foldRune

/-- Decoding into a `string` field. -/
def decodeString (cur : String) : JSON → Except GoError String
  | .null => .ok cur
  | .str s => .ok s
  | j => .error (unmarshalTypeError j)

/-- Decoding into the field `Value []interface{}`: the elements are interface
values, each is replaced. -/
def decodeValue : JSON → Except GoError (List JSON)
  | .null => .ok []
  | .arr elems => .ok elems
  | j => .error (unmarshalTypeError j)

/-- Decoding the members of an object into a struct, one after the other. -/
def decodeMembers {T : Type} (field : T → String → JSON → Except GoError T) :
    List (String × JSON) → T → Except GoError T
  | [], cur => .ok cur
  | (key, v) :: rest, cur =>
    match field cur key v with
    | .error e => .error e
    | .ok cur1 => decodeMembers field rest cur1

/-- Decoding into a struct. -/
def decodeStruct {T : Type} (field : T → String → JSON → Except GoError T) (cur : T) :
    JSON → Except GoError T
  | .null => .ok cur
  | .obj members => decodeMembers field members cur
  | j => .error (unmarshalTypeError j)

/-- A slice while it is decoded: the elements of its backing array that have been
written, and its length. -/
structure SliceDraft (T : Type) where
  backing : List T
  len : Nat

/-- Decoding the elements of an array in turn, each into the element the backing
array holds at its index, or into a zero element when there is none. The result
is the backing array: the decoded elements, then the elements not reached. -/
def decodeElems {T : Type} (elem : T → JSON → Except GoError T) (zero : T) :
    List JSON → List T → Except GoError (List T)
  | [], backing => .ok backing
  | j :: rest, backing =>
    match elem (backing.headD zero) j with
    | .error e => .error e
    | .ok x =>
      match decodeElems elem zero rest backing.tail with
      | .error e => .error e
      | .ok xs => .ok (x :: xs)

/-- Decoding into a slice of structs: `null` gives the `nil` slice, an empty
array a new empty slice, and an array with elements is decoded over the backing
array and sets the length to its number of elements. -/
def decodeSlice {T : Type} (elem : T → JSON → Except GoError T) (zero : T)
    (cur : SliceDraft T) : JSON → Except GoError (SliceDraft T)
  | .null => .ok ⟨[], 0⟩
  | .arr elems =>
    if elems.isEmpty then .ok ⟨[], 0⟩
    else
      match decodeElems elem zero elems cur.backing with
      | .error e => .error e
      | .ok backing => .ok ⟨backing, elems.length⟩
  | j => .error (unmarshalTypeError j)

/-- Modelled from the spec: storing one label of a label set into an
`afetMetric`; the label `function_name` goes to `FunctionName`. -/
def afetMetric.field (cur : afetMetric) (key : String) (v : JSON) : Except GoError afetMetric :=
  if fieldMatch key "function_name" then
    match atField "function_name" (decodeString cur.FunctionName v) with
    | .error e => .error e
    | .ok s => .ok { cur with FunctionName := s }
  else .ok cur

/-- Modelled from the spec: storing one label of a label set into an
`invocRateMetric`; the labels `function_name` and `code` go to `FunctionName`
and `Code`. -/
def invocRateMetric.field (cur : invocRateMetric) (key : String) (v : JSON) :
    Except GoError invocRateMetric :=
  if fieldMatch key "function_name" then
    match atField "function_name" (decodeString cur.FunctionName v) with
    | .error e => .error e
    | .ok s => .ok { cur with FunctionName := s }
  else if fieldMatch key "code" then
    match atField "code" (decodeString cur.Code v) with
    | .error e => .error e
    | .ok s => .ok { cur with Code := s }
  else .ok cur

/-- Modelled from the spec: storing one label of a label set into a
`serviceCountMetric`; the label `function_name` goes to `FunctionName`. -/
def serviceCountMetric.field (cur : serviceCountMetric) (key : String) (v : JSON) :
    Except GoError serviceCountMetric :=
  if fieldMatch key "function_name" then
    match atField "function_name" (decodeString cur.FunctionName v) with
    | .error e => .error e
    | .ok s => .ok { cur with FunctionName := s }
  else .ok cur

/-- Modelled from the spec: storing one label of a label set into a
`cpuUsageMetric`; the label `instance` goes to `Instance`. -/
def cpuUsageMetric.field (cur : cpuUsageMetric) (key : String) (v : JSON) :
    Except GoError cpuUsageMetric :=
  if fieldMatch key "instance" then
    match atField "instance" (decodeString cur.Instance v) with
    | .error e => .error e
    | .ok s => .ok { cur with Instance := s }
  else .ok cur

/-- Modelled from the spec: storing one label of a label set into a
`ramUsageMetric`; the label `instance` goes to `Instance`. -/
def ramUsageMetric.field (cur : ramUsageMetric) (key : String) (v : JSON) :
    Except GoError ramUsageMetric :=
  if fieldMatch key "instance" then
    match atField "instance" (decodeString cur.Instance v) with
    | .error e => .error e
    | .ok s => .ok { cur with Instance := s }
  else .ok cur

/-- Modelled from the spec: the labels a result item of a given shape is expected
to carry. A result item that lacks one of them is a decode-shape error. -/
class ExpectedLabels (M : Type) where
  labels : List String

/-- Modelled from the spec: an AFET item carries the label `function_name`. -/
instance : ExpectedLabels afetMetric := ⟨["function_name"]⟩

/-- Modelled from the spec: an invocation-rate item carries the labels
`function_name` and `code`. -/
instance : ExpectedLabels invocRateMetric := ⟨["function_name", "code"]⟩

/-- Modelled from the spec: a service-count item carries the label
`function_name`. -/
instance : ExpectedLabels serviceCountMetric := ⟨["function_name"]⟩

/-- Modelled from the spec: a CPU-usage item carries the label `instance`. -/
instance : ExpectedLabels cpuUsageMetric := ⟨["instance"]⟩

/-- Modelled from the spec: a RAM-usage item carries the label `instance`. -/
instance : ExpectedLabels ramUsageMetric := ⟨["instance"]⟩

/-- Whether a JSON value is a string. -/
def JSON.isStr : JSON → Bool
  | .str _ => true
  | _ => false

/-- The members of a JSON object (none for another value). -/
def JSON.members : JSON → List (String × JSON)
  | .obj ms => ms
  | _ => []

/-- The expected labels a label set gives a value to: those matched by the key
of a member that holds a string. -/
def labelsSeen (expected : List String) (labels : List (String × JSON)) : List String :=
  expected.filter fun e => labels.any fun kv => fieldMatch kv.1 e && kv.2.isStr

/-- A result item while it is decoded: its fields, and the expected labels that
have been given a value. -/
structure ItemDraft (M : Type) where
  Metric : M
  Value : List JSON
  seen : List String

/-- Modelled from the spec: storing one member of a result item; the member
`metric` goes to `Metric` and the member `value` to `Value`. -/
def ItemDraft.field {M : Type} [ExpectedLabels M]
    (metricField : M → String → JSON → Except GoError M)
    (cur : ItemDraft M) (key : String) (v : JSON) : Except GoError (ItemDraft M) :=
  if fieldMatch key "metric" then
    match atField "metric" (decodeStruct metricField cur.Metric v) with
    | .error e => .error e
    | .ok m =>
      .ok { cur with Metric := m,
                     seen := cur.seen ++ labelsSeen (ExpectedLabels.labels M) v.members }
  else if fieldMatch key "value" then
    match atField "value" (decodeValue v) with
    | .error e => .error e
    | .ok xs => .ok { cur with Value := xs }
  else .ok cur

/-- The `Data` member of a response while it is decoded. -/
structure DataDraft (M : Type) where
  Result : SliceDraft (ItemDraft M)

/-- Modelled from the spec: storing one member of `Data`; the member `result`
goes to `Result`. -/
def DataDraft.field {M : Type} [ExpectedLabels M]
    (metricField : M → String → JSON → Except GoError M) (zero : M)
    (cur : DataDraft M) (key : String) (v : JSON) : Except GoError (DataDraft M) :=
  if fieldMatch key "result" then
    match atField "result"
      (decodeSlice (decodeStruct (ItemDraft.field metricField)) ⟨zero, [], []⟩ cur.Result v) with
    | .error e => .error e
    | .ok items => .ok { cur with Result := items }
  else .ok cur

/-- A response while it is decoded. -/
structure ResponseDraft (M : Type) where
  Data : DataDraft M

/-- Modelled from the spec: storing one member of a response; the member `data`
goes to `Data`. -/
def ResponseDraft.field {M : Type} [ExpectedLabels M]
    (metricField : M → String → JSON → Except GoError M) (zero : M)
    (cur : ResponseDraft M) (key : String) (v : JSON) : Except GoError (ResponseDraft M) :=
  if fieldMatch key "data" then
    match atField "data" (decodeStruct (DataDraft.field metricField zero) cur.Data v) with
    | .error e => .error e
    | .ok d => .ok { cur with Data := d }
  else .ok cur

/-- Modelled from the spec: a decoded result item is a result item that has been
given each of its expected labels; a missing expected label is a decode-shape
error. -/
def ItemDraft.finish {M : Type} [ExpectedLabels M] (d : ItemDraft M) :
    Except GoError (ResultItem M) :=
  match (ExpectedLabels.labels M).find? (fun e => !d.seen.contains e) with
  | some e => .error (.MissingLabel e)
  | none => .ok ⟨d.Metric, d.Value⟩

/-- The decoded result items of a slice, or the first decode-shape error. -/
def finishItems {M : Type} [ExpectedLabels M] :
    List (ItemDraft M) → Except GoError (List (ResultItem M))
  | [] => .ok []
  | d :: rest =>
    match d.finish with
    | .error e => .error e
    | .ok item =>
      match finishItems rest with
      | .error e => .error e
      | .ok items => .ok (item :: items)

/-- Decoding a JSON value into a zero response of the given shape. -/
def decodeResponse {M : Type} [ExpectedLabels M]
    (metricField : M → String → JSON → Except GoError M)
    (zero : M) (j : JSON) : Except GoError (Response M) :=
  match decodeStruct (ResponseDraft.field metricField zero) ⟨⟨⟨[], 0⟩⟩⟩ j with
  | .error e => .error e
  | .ok d =>
    match finishItems (d.Data.Result.backing.take d.Data.Result.len) with
    | .error e => .error e
    | .ok items => .ok ⟨⟨items⟩⟩

/-- The call `json.Unmarshal([]byte(strJSON), &respObj)` on a zero `respObj`. -/
def Unmarshal {F M : Type} [ExpectedLabels M] (rt : Runtime F)
    (metricField : M → String → JSON → Except GoError M) (zero : M) (strJSON : String) :
    Except GoError (Response M) :=
  match rt.jsonParse strJSON with
  | .error e => .error e
  | .ok j => decodeResponse metricField zero j

/-! ## The normalizer loops and the query functions -/

/-- The `for` loop of `queryAFETrate`. -/
def queryAFETrate.loop {F : Type} (rt : Runtime F) :
    List (ResultItem afetMetric) → GoMap F → Outcome (GoMap F)
  | [], result => .returns result
  | item :: rest, result =>
    match valueString item.Value with
    | .panics p => .panics p
    | .returns s => loop rt rest (result.set item.Metric.FunctionName (floatOrNaN rt s))

/-- The `for` loop of `queryCPUusage`. -/
def queryCPUusage.loop {F : Type} (rt : Runtime F) :
    List (ResultItem cpuUsageMetric) → GoMap F → Outcome (GoMap F)
  | [], result => .returns result
  | item :: rest, result =>
    match valueString item.Value with
    | .panics p => .panics p
    | .returns s => loop rt rest (result.set item.Metric.Instance (floatOrNaN rt s))

/-- The `for` loop of `queryRAMusage`. -/
def queryRAMusage.loop {F : Type} (rt : Runtime F) :
    List (ResultItem ramUsageMetric) → GoMap F → Outcome (GoMap F)
  | [], result => .returns result
  | item :: rest, result =>
    match valueString item.Value with
    | .panics p => .panics p
    | .returns s => loop rt rest (result.set item.Metric.Instance (floatOrNaN rt s))

/-- The `for` loop of `queryInvocRate`: the inner map of the item's function is
made anew, then the item's status code is stored in it. -/
def queryInvocRate.loop {F : Type} (rt : Runtime F) :
    List (ResultItem invocRateMetric) → GoMap (GoMap F) → Outcome (GoMap (GoMap F))
  | [], result => .returns result
  | item :: rest, result =>
    let result1 := result.set item.Metric.FunctionName GoMap.empty
    match valueString item.Value with
    | .panics p => .panics p
    | .returns s =>
      let inner := (result1.get item.Metric.FunctionName).getD GoMap.empty
      loop rt rest (result1.set item.Metric.FunctionName
        (inner.set item.Metric.Code (floatOrNaN rt s)))

/-- The `for` loop of `queryServiceCount`: the error of `strconv.Atoi` is dropped. -/
def queryServiceCount.loop (intSize : Nat) :
    List (ResultItem serviceCountMetric) → GoMap Int → Outcome (GoMap Int)
  | [], result => .returns result
  | item :: rest, result =>
    match valueString item.Value with
    | .panics p => .panics p
    | .returns s =>
      loop intSize rest (result.set item.Metric.FunctionName (Atoi intSize (goBytes s)).1)

/-- The tail of every query function: the loop has run, `return result, nil`. -/
def returnResult {M : Type} : Outcome M → Outcome (MapErr M)
  | .panics p => .panics p
  | .returns result => .returns ⟨some result, none⟩

/-- The function `queryAFETrate`. -/
def queryAFETrate {F : Type} (rt : Runtime F) (query : String) : Outcome (MapErr (GoMap F)) :=
  match rt.Query query with
  | .error err => .returns ⟨none, some err⟩
  | .ok strJSON =>
    match Unmarshal rt afetMetric.field ⟨""⟩ strJSON with
    | .error err => .returns ⟨none, some (.Wrap err deserializeMsg)⟩
    | .ok respObj => returnResult (queryAFETrate.loop rt respObj.Data.Result GoMap.empty)

/-- The function `queryInvocRate`. -/
def queryInvocRate {F : Type} (rt : Runtime F) (query : String) :
    Outcome (MapErr (GoMap (GoMap F))) :=
  match rt.Query query with
  | .error err => .returns ⟨none, some err⟩
  | .ok strJSON =>
    match Unmarshal rt invocRateMetric.field ⟨"", ""⟩ strJSON with
    | .error err => .returns ⟨none, some (.Wrap err deserializeMsg)⟩
    | .ok respObj => returnResult (queryInvocRate.loop rt respObj.Data.Result GoMap.empty)

/-- The function `queryServiceCount`. -/
def queryServiceCount {F : Type} (rt : Runtime F) (intSize : Nat) (query : String) :
    Outcome (MapErr (GoMap Int)) :=
  match rt.Query query with
  | .error err => .returns ⟨none, some err⟩
  | .ok strJSON =>
    match Unmarshal rt serviceCountMetric.field ⟨""⟩ strJSON with
    | .error err => .returns ⟨none, some (.Wrap err deserializeMsg)⟩
    | .ok respObj =>
      returnResult (queryServiceCount.loop intSize respObj.Data.Result GoMap.empty)

/-- The function `queryCPUusage`. -/
def queryCPUusage {F : Type} (rt : Runtime F) (query : String) : Outcome (MapErr (GoMap F)) :=
  match rt.Query query with
  | .error err => .returns ⟨none, some err⟩
  | .ok strJSON =>
    match Unmarshal rt cpuUsageMetric.field ⟨""⟩ strJSON with
    | .error err => .returns ⟨none, some (.Wrap err deserializeMsg)⟩
    | .ok respObj => returnResult (queryCPUusage.loop rt respObj.Data.Result GoMap.empty)

/-- The function `queryRAMusage`. -/
def queryRAMusage {F : Type} (rt : Runtime F) (query : String) : Outcome (MapErr (GoMap F)) :=
  match rt.Query query with
  | .error err => .returns ⟨none, some err⟩
  | .ok strJSON =>
    match Unmarshal rt ramUsageMetric.field ⟨""⟩ strJSON with
    | .error err => .returns ⟨none, some (.Wrap err deserializeMsg)⟩
    | .ok respObj => returnResult (queryRAMusage.loop rt respObj.Data.Result GoMap.empty)

/-! ## The public interface

A `time.Duration` is an `int64` count of nanoseconds. `Duration.Minutes` computes
in `float64`; the values it meets are zero or normal numbers of magnitude between
`2 ^ (-36)` and `2 ^ 28`, which are rationals rounded to 53 significant bits. -/

/-- Rounding to the nearest integer, ties to the even one. -/
def roundHalfEven (q : ℚ) : ℤ :=
  let f := ⌊q⌋
  let r := q - f
  if r < 1 / 2 then f
  else if 1 / 2 < r then f + 1
  else if f % 2 = 0 then f else f + 1

/-- Rounding of a real result to `float64` (round to nearest, ties to even),
away from overflow and from subnormal numbers. -/
def float64 (q : ℚ) : ℚ :=
  if q = 0 then 0
  else
    let ulp : ℚ := 2 ^ (Int.log 2 |q| - 52)
    roundHalfEven (q / ulp) * ulp

/-- The constant `time.Minute`, in nanoseconds. -/
def Minute : Int := 60 * 1000000000

/-- The method `time.Duration.Minutes`:
`min := d / Minute; nsec := d % Minute; return float64(min) + float64(nsec)/(60*1e9)`. -/
def Duration.Minutes (d : Int) : ℚ :=
  let min := Int.tdiv d Minute
  let nsec := Int.tmod d Minute
  float64 (float64 min + float64 (float64 nsec / (60 * 1000000000)))

/-- The verb `%.0f` of `fmt.Sprintf`: the sign, then the decimal numeral of the
magnitude rounded to an integer, ties to even. -/
def fmtF0 (x : ℚ) : String :=
  (if x < 0 then "-" else "") ++ toString (roundHalfEven |x|).toNat

/-- The statement `strTimeSpan := fmt.Sprintf("%.0fm", timeSpan.Minutes())`. -/
def strTimeSpan (timeSpan : Int) : String :=
  fmtF0 (Duration.Minutes timeSpan) ++ "m"

/-- The query expression `QueryAFET` builds. -/
def QueryAFET.query (timeSpan : Int) : String :=
  "rate(gateway_functions_seconds_sum[" ++ strTimeSpan timeSpan ++
    "]) / rate(gateway_functions_seconds_count[" ++ strTimeSpan timeSpan ++ "])"

/-- The method `QueryAFET`. -/
def QueryAFET {F : Type} (rt : Runtime F) (timeSpan : Int) : Outcome (MapErr (GoMap F)) :=
  queryAFETrate rt (QueryAFET.query timeSpan)

/-- The query expression `QueryInvoc` builds. -/
def QueryInvoc.query (timeSpan : Int) : String :=
  "rate(gateway_function_invocation_total[" ++ strTimeSpan timeSpan ++ "])"

/-- The method `QueryInvoc`. -/
def QueryInvoc {F : Type} (rt : Runtime F) (timeSpan : Int) :
    Outcome (MapErr (GoMap (GoMap F))) :=
  queryInvocRate rt (QueryInvoc.query timeSpan)

/-- The query expression `QueryServiceCount` builds. -/
def QueryServiceCount.query : String := "gateway_service_count"

/-- The method `QueryServiceCount`. -/
def QueryServiceCount {F : Type} (rt : Runtime F) (intSize : Nat) : Outcome (MapErr (GoMap Int)) :=
  queryServiceCount rt intSize QueryServiceCount.query

/-- The query expression `QueryCPUusage` builds. -/
def QueryCPUusage.query (timeSpan : Int) : String :=
  "1 - (avg by (instance) (rate(node_cpu_seconds_total\x7bjob=\"node\",mode=\"idle\"\x7d[" ++
    strTimeSpan timeSpan ++ "])))"

/-- The method `QueryCPUusage`. -/
def QueryCPUusage {F : Type} (rt : Runtime F) (timeSpan : Int) : Outcome (MapErr (GoMap F)) :=
  queryCPUusage rt (QueryCPUusage.query timeSpan)

/-- The query expression `QueryRAMusage` builds. -/
def QueryRAMusage.query (timeSpan : Int) : String :=
  "(1 - ((avg_over_time(node_memory_MemFree_bytes[" ++ strTimeSpan timeSpan ++
    "]) + avg_over_time(node_memory_Cached_bytes[" ++ strTimeSpan timeSpan ++
    "]) + avg_over_time(node_memory_Buffers_bytes[" ++ strTimeSpan timeSpan ++
    "])) / avg_over_time(node_memory_MemTotal_bytes[" ++ strTimeSpan timeSpan ++ "])))"

/-- The method `QueryRAMusage`. -/
def QueryRAMusage {F : Type} (rt : Runtime F) (timeSpan : Int) : Outcome (MapErr (GoMap F)) :=
  queryRAMusage rt (QueryRAMusage.query timeSpan)

/-! ## Vocabulary of the statements -/

/-- Storing a list of pairs into a map, from the first to the last. -/
def GoMap.setAll {V : Type} (kvs : List (String × V)) (m : GoMap V) : GoMap V :=
  kvs.foldl (fun acc kv => acc.set kv.1 kv.2) m

/-- A value tuple the normalizers can read: `Value[1]` exists and is a string. -/
def wellShaped (Value : List JSON) : Prop :=
  ∃ s, valueString Value = .returns s

/-- The value string of a tuple (the empty string when there is none). -/
def valueOf (Value : List JSON) : String :=
  match valueString Value with
  | .returns s => s
  | .panics _ => ""

/-- The value of a string of decimal digits read after the number `n`. -/
def digitsValue (n : Nat) (ds : List Nat) : Nat :=
  ds.foldl (fun acc c => acc * 10 + (c - 48)) n

/-- An unsigned decimal literal: one or more of the bytes `0` to `9`. -/
def natLiteral? (ds : List Nat) : Option Nat :=
  if ds ≠ [] ∧ ∀ c ∈ ds, 48 ≤ c ∧ c ≤ 57 then some (digitsValue 0 ds) else none

/-- The integer a decimal literal denotes: an optional sign `+` or `-`, then one
or more digits. -/
def intLiteral? (s : List Nat) : Option Int :=
  if s.head? = some 45 then (natLiteral? s.tail).map (fun n => -(n : Int))
  else if s.head? = some 43 then (natLiteral? s.tail).map (fun n => (n : Int))
  else (natLiteral? s).map (fun n => (n : Int))

/-- The number of positions of a text at which the pattern `pat` occurs. -/
def occurrences (pat : List Char) : List Char → Nat
  | [] => 0
  | c :: cs => (if pat.isPrefixOf (c :: cs) then 1 else 0) + occurrences pat cs

/-- Balance of an opening and a closing character, in the words of the
specification: every prefix has at least as many opening as closing characters,
and the totals are equal. -/
def Balanced (o c : Char) (s : List Char) : Prop :=
  (∀ p, p <+: s → p.count c ≤ p.count o) ∧ s.count o = s.count c

/-- The nesting depth after reading a text from depth `d`; `none` when a closing
character comes at depth 0. -/
def scanDepth (o c : Char) : List Char → Nat → Option Nat
  | [], d => some d
  | x :: xs, d =>
    if x = o then scanDepth o c xs (d + 1)
    else if x = c then (if d = 0 then none else scanDepth o c xs (d - 1))
    else scanDepth o c xs d

/-- The three flat float-valued normalizers. -/
inductive FlatFamily where
  | AFET
  | CPUusage
  | RAMusage
  deriving DecidableEq, Repr

/-- The query function of a flat float-valued family. -/
def FlatFamily.run {F : Type} (fam : FlatFamily) (rt : Runtime F) (query : String) :
    Outcome (MapErr (GoMap F)) :=
  match fam with
  | .AFET => queryAFETrate rt query
  | .CPUusage => queryCPUusage rt query
  | .RAMusage => queryRAMusage rt query

/-- The result list a flat family decodes from a body, each item as its entity
key (function name, or instance for CPU and RAM) and its value tuple. -/
def FlatFamily.decode {F : Type} (fam : FlatFamily) (rt : Runtime F) (strJSON : String) :
    Except GoError (List (String × List JSON)) :=
  match fam with
  | .AFET =>
    match Unmarshal rt afetMetric.field ⟨""⟩ strJSON with
    | .error e => .error e
    | .ok respObj => .ok (respObj.Data.Result.map fun it => (it.Metric.FunctionName, it.Value))
  | .CPUusage =>
    match Unmarshal rt cpuUsageMetric.field ⟨""⟩ strJSON with
    | .error e => .error e
    | .ok respObj => .ok (respObj.Data.Result.map fun it => (it.Metric.Instance, it.Value))
  | .RAMusage =>
    match Unmarshal rt ramUsageMetric.field ⟨""⟩ strJSON with
    | .error e => .error e
    | .ok respObj => .ok (respObj.Data.Result.map fun it => (it.Metric.Instance, it.Value))

/-- The five normalizers. -/
inductive Family where
  | AFET
  | InvocRate
  | ServiceCount
  | CPUusage
  | RAMusage
  deriving DecidableEq, Repr

/-- A map returned by one of the five query functions. -/
inductive AnyMap (F : Type) where
  | floats (m : GoMap F)
  | nested (m : GoMap (GoMap F))
  | ints (m : GoMap Int)

/-- Whether a key is present in the (outer) map. -/
def AnyMap.has {F : Type} : AnyMap F → String → Bool
  | .floats m, k => (m.get k).isSome
  | .nested m, k => (m.get k).isSome
  | .ints m, k => (m.get k).isSome

/-- The number of entries of the (outer) map. -/
def AnyMap.len {F : Type} : AnyMap F → Nat
  | .floats m => m.len
  | .nested m => m.len
  | .ints m => m.len

/-- The returned pair of a query function, its map seen as an `AnyMap`. -/
def asAnyMap {F M : Type} (inj : M → AnyMap F) : Outcome (MapErr M) → Outcome (MapErr (AnyMap F))
  | .panics p => .panics p
  | .returns r => .returns ⟨r.result.map inj, r.err⟩

/-- The query function of a family. -/
def Family.run {F : Type} (fam : Family) (rt : Runtime F) (intSize : Nat) (query : String) :
    Outcome (MapErr (AnyMap F)) :=
  match fam with
  | .AFET => asAnyMap .floats (queryAFETrate rt query)
  | .InvocRate => asAnyMap .nested (queryInvocRate rt query)
  | .ServiceCount => asAnyMap .ints (queryServiceCount rt intSize query)
  | .CPUusage => asAnyMap .floats (queryCPUusage rt query)
  | .RAMusage => asAnyMap .floats (queryRAMusage rt query)

/-- The public operation of a family. -/
def Family.Query {F : Type} (fam : Family) (rt : Runtime F) (intSize : Nat) (timeSpan : Int) :
    Outcome (MapErr (AnyMap F)) :=
  match fam with
  | .AFET => asAnyMap .floats (QueryAFET rt timeSpan)
  | .InvocRate => asAnyMap .nested (QueryInvoc rt timeSpan)
  | .ServiceCount => asAnyMap .ints (QueryServiceCount rt intSize)
  | .CPUusage => asAnyMap .floats (QueryCPUusage rt timeSpan)
  | .RAMusage => asAnyMap .floats (QueryRAMusage rt timeSpan)

/-- The query expression the public operation of a family builds. -/
def Family.queryText (fam : Family) (timeSpan : Int) : String :=
  match fam with
  | .AFET => QueryAFET.query timeSpan
  | .InvocRate => QueryInvoc.query timeSpan
  | .ServiceCount => QueryServiceCount.query
  | .CPUusage => QueryCPUusage.query timeSpan
  | .RAMusage => QueryRAMusage.query timeSpan

/-- The result list a family decodes from a body, each item as its entity name
(function name, or instance for CPU and RAM) and its value tuple. -/
def Family.decode {F : Type} (fam : Family) (rt : Runtime F) (strJSON : String) :
    Except GoError (List (String × List JSON)) :=
  match fam with
  | .AFET =>
    match Unmarshal rt afetMetric.field ⟨""⟩ strJSON with
    | .error e => .error e
    | .ok respObj => .ok (respObj.Data.Result.map fun it => (it.Metric.FunctionName, it.Value))
  | .InvocRate =>
    match Unmarshal rt invocRateMetric.field ⟨"", ""⟩ strJSON with
    | .error e => .error e
    | .ok respObj => .ok (respObj.Data.Result.map fun it => (it.Metric.FunctionName, it.Value))
  | .ServiceCount =>
    match Unmarshal rt serviceCountMetric.field ⟨""⟩ strJSON with
    | .error e => .error e
    | .ok respObj => .ok (respObj.Data.Result.map fun it => (it.Metric.FunctionName, it.Value))
  | .CPUusage =>
    match Unmarshal rt cpuUsageMetric.field ⟨""⟩ strJSON with
    | .error e => .error e
    | .ok respObj => .ok (respObj.Data.Result.map fun it => (it.Metric.Instance, it.Value))
  | .RAMusage =>
    match Unmarshal rt ramUsageMetric.field ⟨""⟩ strJSON with
    | .error e => .error e
    | .ok respObj => .ok (respObj.Data.Result.map fun it => (it.Metric.Instance, it.Value))

/-- A runtime for worked examples: the backend answers every query with the text
`body`, that text parses to `j`, and a float is kept as its literal (a nonempty
string of digits and dots), `none` being NaN. -/
def sampleRuntime (j : JSON) : Runtime (Option String) where
  Query := fun _ => .ok "body"
  jsonParse := fun strJSON => if strJSON = "body" then .ok j else .error (.base "invalid character")
  ParseFloat := fun s =>
    if s.data ≠ [] ∧ s.data.all (fun c => c.isDigit || c == '.') then .ok (some s)
    else .error (.base "strconv.ParseFloat: parsing: invalid syntax")
  NaN := none

/-- The JSON of a result item with string labels, from its labels and its value
tuple. -/
def itemJSON (labels : List (String × String)) (Value : List JSON) : JSON :=
  .obj [("metric", .obj (labels.map fun kv => (kv.1, .str kv.2))), ("value", .arr Value)]

/-- The JSON of a response envelope, from its result items. -/
def envelopeJSON (items : List JSON) : JSON :=
  .obj [("status", .str "success"),
    ("data", .obj [("resultType", .str "vector"), ("result", .arr items)])]

/-- The body of the end-to-end scenario: `f1` with "1.5", `f2` with "abc". -/
def bodyF1F2 : JSON :=
  envelopeJSON [
    itemJSON [("function_name", "f1"), ("instance", "n1")] [.num "0", .str "1.5"],
    itemJSON [("function_name", "f2"), ("instance", "n2")] [.num "0", .str "abc"]]

/-- A body in which `f1` occurs twice and `f2` once. -/
def bodyF1F2F1 : JSON :=
  envelopeJSON [
    itemJSON [("function_name", "f1"), ("code", "200"), ("instance", "n1")]
      [.num "0", .str "1"],
    itemJSON [("function_name", "f2"), ("code", "200"), ("instance", "n2")]
      [.num "0", .str "abc"],
    itemJSON [("function_name", "f1"), ("code", "200"), ("instance", "n1")]
      [.num "0", .str "2"]]

/-- The body of the invocation-rate scenario: the one item f1 / 200 / "3.0". -/
def bodyOneCode : JSON :=
  envelopeJSON [itemJSON [("function_name", "f1"), ("code", "200")] [.num "0", .str "3.0"]]

/-- A body with two status codes of one function: f1 / 200 / "3.0", then
f1 / 500 / "1.0". -/
def bodyTwoCodes : JSON :=
  envelopeJSON [
    itemJSON [("function_name", "f1"), ("code", "200")] [.num "0", .str "3.0"],
    itemJSON [("function_name", "f1"), ("code", "500")] [.num "0", .str "1.0"]]

/-- A runtime whose backend cannot be reached: `Query` fails. -/
def unreachableRuntime : Runtime (Option String) where
  Query := fun _ => .error (.Wrap (.base "dial tcp: connection refused")
    "Error while performing an HTTP request to the Prometheus API endpoint")
  jsonParse := (sampleRuntime .null).jsonParse
  ParseFloat := (sampleRuntime .null).ParseFloat
  NaN := none

/-- A runtime whose backend answers with the empty string, which is not JSON. -/
def emptyBodyRuntime : Runtime (Option String) where
  Query := fun _ => .ok ""
  jsonParse := fun strJSON =>
    if strJSON = "" then .error (.base "unexpected end of JSON input") else .ok .null
  ParseFloat := (sampleRuntime .null).ParseFloat
  NaN := none

/-- A body of service counts: "12", "abc", "99999999999999999999", "1.5", "". -/
def bodyCounts : JSON :=
  envelopeJSON [
    itemJSON [("function_name", "f1")] [.num "0", .str "12"],
    itemJSON [("function_name", "f2")] [.num "0", .str "abc"],
    itemJSON [("function_name", "f3")] [.num "0", .str "99999999999999999999"],
    itemJSON [("function_name", "f4")] [.num "0", .str "1.5"],
    itemJSON [("function_name", "f5")] [.num "0", .str ""]]

/-- The response `bodyCounts` decodes to under the service-count shape. -/
def respCounts : serviceCountResponse :=
  ⟨⟨[⟨⟨"f1"⟩, [.num "0", .str "12"]⟩, ⟨⟨"f2"⟩, [.num "0", .str "abc"]⟩,
    ⟨⟨"f3"⟩, [.num "0", .str "99999999999999999999"]⟩, ⟨⟨"f4"⟩, [.num "0", .str "1.5"]⟩,
    ⟨⟨"f5"⟩, [.num "0", .str ""]⟩]⟩⟩

/-- The labels the claims name for a family: its entity key, and the status
code for the invocation rate. -/
def Family.labels : Family → List String
  | .AFET => ["function_name"]
  | .InvocRate => ["function_name", "code"]
  | .ServiceCount => ["function_name"]
  | .CPUusage => ["instance"]
  | .RAMusage => ["instance"]

/-- A body whose one item has a one-element value tuple. -/
def bodyOneElement : JSON :=
  envelopeJSON [itemJSON [("function_name", "f1"), ("code", "200"), ("instance", "n1")]
    [.num "0"]]

/-- A body whose one item has an empty value tuple. -/
def bodyEmptyTuple : JSON :=
  envelopeJSON [itemJSON [("function_name", "f1")] []]

/-- A body whose one item has no value tuple. -/
def bodyNoTuple : JSON :=
  envelopeJSON [.obj [("metric", .obj [("function_name", .str "f1")])]]

/-- A body whose one item has a number as second element of its value tuple. -/
def bodyNumberValue : JSON :=
  envelopeJSON [itemJSON [("function_name", "f1")] [.num "0", .num "1.5"]]

namespace GoMap

variable {V : Type}

theorem get_filter_ne (m : GoMap V) (k k' : String) (h : k ≠ k') :
    get (m.filter (fun p => decide (p.1 ≠ k))) k' = get m k' := by
  induction m with
  | nil => rfl
  | cons p m ih =>
    obtain ⟨a, b⟩ := p
    by_cases hak : a = k
    · subst hak
      rw [List.filter_cons_of_neg (by simp), ih]
      simp [get, h]
    · rw [List.filter_cons_of_pos (by simpa using hak)]
      simp only [get, ih]

theorem get_set (m : GoMap V) (k k' : String) (v : V) :
    (m.set k v).get k' = if k = k' then some v else m.get k' := by
  unfold set
  by_cases h : k = k'
  · simp [get, h]
  · simp only [get, h, if_false]
    exact get_filter_ne m k k' h

theorem get_isSome_iff (m : GoMap V) (k : String) : (m.get k).isSome ↔ k ∈ m.keys := by
  induction m with
  | nil => simp [get, keys]
  | cons p m ih =>
    obtain ⟨a, b⟩ := p
    by_cases hak : a = k
    · simp [get, keys, hak]
    · have h2 : ¬ k = a := fun h => hak h.symm
      simp only [get, hak, if_false, ih, keys, List.map_cons, List.mem_cons, h2, false_or]

theorem mem_keys_set (m : GoMap V) (k k' : String) (v : V) :
    k' ∈ (m.set k v).keys ↔ k' = k ∨ k' ∈ m.keys := by
  unfold set keys
  simp only [List.map_cons, List.mem_cons, List.mem_map, List.mem_filter, decide_eq_true_eq]
  constructor
  · rintro (h | ⟨p, ⟨hp, _⟩, rfl⟩)
    · exact Or.inl h
    · exact Or.inr ⟨p, hp, rfl⟩
  · rintro (h | ⟨p, hp, rfl⟩)
    · exact Or.inl h
    · by_cases hk : p.1 = k
      · exact Or.inl hk
      · exact Or.inr ⟨p, ⟨hp, hk⟩, rfl⟩

theorem nodup_keys_set (m : GoMap V) (k : String) (v : V) (h : m.keys.Nodup) :
    (m.set k v).keys.Nodup := by
  unfold set keys
  rw [List.map_cons, List.nodup_cons]
  constructor
  · simp only [List.mem_map, List.mem_filter, decide_eq_true_eq]
    rintro ⟨p, ⟨_, hp⟩, hpk⟩
    exact hp hpk
  · exact (List.filter_sublist m).map Prod.fst |>.nodup h

theorem setAll_nil (m : GoMap V) : setAll [] m = m := rfl

theorem setAll_cons (kv : String × V) (kvs : List (String × V)) (m : GoMap V) :
    setAll (kv :: kvs) m = setAll kvs (m.set kv.1 kv.2) := rfl

theorem setAll_append (xs ys : List (String × V)) (m : GoMap V) :
    setAll (xs ++ ys) m = setAll ys (setAll xs m) := by
  simp [setAll, List.foldl_append]

theorem get_setAll_of_not_mem (kvs : List (String × V)) (m : GoMap V) (k : String)
    (h : k ∉ kvs.map Prod.fst) : (setAll kvs m).get k = m.get k := by
  induction kvs generalizing m with
  | nil => rfl
  | cons kv kvs ih =>
    rw [List.map_cons, List.mem_cons, not_or] at h
    rw [setAll_cons, ih _ h.2, get_set, if_neg (fun e => h.1 e.symm)]

theorem get_setAll_last (pre post : List (String × V)) (m : GoMap V) (k : String) (v : V)
    (h : k ∉ post.map Prod.fst) : (setAll (pre ++ (k, v) :: post) m).get k = some v := by
  rw [setAll_append, setAll_cons, get_setAll_of_not_mem _ _ _ h, get_set, if_pos rfl]

theorem mem_keys_setAll (kvs : List (String × V)) (m : GoMap V) (k : String) :
    k ∈ (setAll kvs m).keys ↔ k ∈ kvs.map Prod.fst ∨ k ∈ m.keys := by
  induction kvs generalizing m with
  | nil => simp [setAll_nil]
  | cons kv kvs ih =>
    rw [setAll_cons, ih, mem_keys_set, List.map_cons, List.mem_cons]
    tauto

theorem nodup_keys_setAll (kvs : List (String × V)) (m : GoMap V) (h : m.keys.Nodup) :
    (setAll kvs m).keys.Nodup := by
  induction kvs generalizing m with
  | nil => exact h
  | cons kv kvs ih => exact ih _ (nodup_keys_set m kv.1 kv.2 h)

theorem len_setAll_empty (kvs : List (String × V)) :
    (setAll kvs (empty : GoMap V)).len = (kvs.map Prod.fst).dedup.length := by
  have hnd : (setAll kvs (empty : GoMap V)).keys.Nodup :=
    nodup_keys_setAll kvs empty (by simp [empty, keys])
  have hperm : (setAll kvs (empty : GoMap V)).keys.Perm (kvs.map Prod.fst).dedup := by
    rw [List.perm_ext_iff_of_nodup hnd (List.nodup_dedup _)]
    intro k
    rw [mem_keys_setAll, List.mem_dedup]
    simp [empty, keys]
  have := hperm.length_eq
  simpa [len, keys] using this

end GoMap

/-! ## strconv.Atoi against decimal literals -/

theorem digitsValue_cons (n c : Nat) (ds : List Nat) :
    digitsValue n (c :: ds) = digitsValue (n * 10 + (c - 48)) ds := rfl

theorem le_digitsValue (n : Nat) (ds : List Nat) : n ≤ digitsValue n ds := by
  induction ds generalizing n with
  | nil => exact Nat.le_refl _
  | cons c ds ih =>
    rw [digitsValue_cons]
    exact le_trans (by omega) (ih _)

theorem digitOf_digit {c : Nat} (h : 48 ≤ c ∧ c ≤ 57) : digitOf c = some (c - 48) := by
  simp [digitOf, h]

theorem digit_of_digitOf {c d : Nat} (h : digitOf c = some d) (hd : d < 10) : 48 ≤ c ∧ c ≤ 57 := by
  unfold digitOf at h
  split at h
  · assumption
  · split at h
    · simp at h; omega
    · simp at h

theorem ParseUint.loop_digits (maxVal : Nat) (hmax : maxVal < 2 ^ 64) (ds : List Nat)
    (hds : ∀ c ∈ ds, 48 ≤ c ∧ c ≤ 57) (n : Nat) (hn : n ≤ maxVal) :
    ParseUint.loop maxVal ds n =
      if digitsValue n ds ≤ maxVal then (digitsValue n ds, none) else (maxVal, some .ErrRange) := by
  induction ds generalizing n with
  | nil => simp [ParseUint.loop, digitsValue, hn]
  | cons c ds ih =>
    have hc := hds c (List.mem_cons_self _ _)
    have hrest : ∀ x ∈ ds, 48 ≤ x ∧ x ≤ 57 := fun x hx => hds x (List.mem_cons_of_mem _ hx)
    have hge := le_digitsValue (n * 10 + (c - 48)) ds
    rw [digitsValue_cons]
    simp only [ParseUint.loop, digitOf_digit hc]
    norm_num only at hmax ⊢
    have hd : ¬ (10 ≤ c - 48) := by omega
    rw [if_neg hd]
    by_cases h1 : 1844674407370955162 ≤ n
    · rw [if_pos h1, if_neg (by omega)]
    · rw [if_neg h1]
      have e1 : n * 10 % 18446744073709551616 = n * 10 := Nat.mod_eq_of_lt (by omega)
      rw [e1]
      by_cases h2 : n * 10 + (c - 48) < 18446744073709551616
      · have e2 : (n * 10 + (c - 48)) % 18446744073709551616 = n * 10 + (c - 48) :=
          Nat.mod_eq_of_lt h2
        rw [e2]
        by_cases h3 : n * 10 + (c - 48) ≤ maxVal
        · rw [if_neg (by omega)]
          exact ih hrest _ h3
        · rw [if_pos (by omega), if_neg (by omega)]
      · rw [if_pos (by omega), if_neg (by omega)]

theorem ParseUint.loop_none (maxVal : Nat) (s : List Nat) (n m : Nat)
    (h : ParseUint.loop maxVal s n = (m, none)) : ∀ c ∈ s, 48 ≤ c ∧ c ≤ 57 := by
  induction s generalizing n with
  | nil => simp
  | cons c s ih =>
    simp only [ParseUint.loop] at h
    cases hdo : digitOf c with
    | none => simp [hdo] at h
    | some d =>
      simp only [hdo] at h
      split at h
      · simp at h
      · split at h
        · simp at h
        · split at h
          · simp at h
          · intro x hx
            rcases List.mem_cons.mp hx with rfl | hx
            · exact digit_of_digitOf hdo (by omega)
            · exact ih _ h x hx

theorem ParseUint.loop_err (maxVal : Nat) (s : List Nat) (n : Nat) :
    ((ParseUint.loop maxVal s n).2 = some .ErrSyntax → (ParseUint.loop maxVal s n).1 = 0) ∧
    ((ParseUint.loop maxVal s n).2 = some .ErrRange → (ParseUint.loop maxVal s n).1 = maxVal) := by
  induction s generalizing n with
  | nil => simp [ParseUint.loop]
  | cons c s ih =>
    simp only [ParseUint.loop]
    cases hdo : digitOf c with
    | none => simp
    | some d =>
      simp only
      split
      · simp
      · split
        · simp
        · split
          · simp
          · exact ih _


theorem digitsValue_lt (n : Nat) (ds : List Nat) (hds : ∀ c ∈ ds, 48 ≤ c ∧ c ≤ 57) :
    digitsValue n ds < (n + 1) * 10 ^ ds.length := by
  induction ds generalizing n with
  | nil => simp [digitsValue]
  | cons c ds ih =>
    have hc := hds c (List.mem_cons_self _ _)
    have h := ih (n * 10 + (c - 48)) (fun x hx => hds x (List.mem_cons_of_mem _ hx))
    rw [digitsValue_cons, List.length_cons, pow_succ]
    calc digitsValue (n * 10 + (c - 48)) ds
        < (n * 10 + (c - 48) + 1) * 10 ^ ds.length := h
      _ ≤ ((n + 1) * 10) * 10 ^ ds.length := Nat.mul_le_mul_right _ (by omega)
      _ = (n + 1) * (10 ^ ds.length * 10) := by ring

theorem Atoi.fastLoop_digits (ds : List Nat) (hds : ∀ c ∈ ds, 48 ≤ c ∧ c ≤ 57) (k : Nat) :
    Atoi.fastLoop ds (k : Int) = some ((digitsValue k ds : Nat) : Int) := by
  induction ds generalizing k with
  | nil => rfl
  | cons c ds ih =>
    have hc := hds c (List.mem_cons_self _ _)
    have e : (c + 256 - 48) % 256 = c - 48 := by omega
    simp only [Atoi.fastLoop, e, digitsValue_cons]
    rw [if_neg (by omega)]
    rw [← ih (fun x hx => hds x (List.mem_cons_of_mem _ hx)) (k * 10 + (c - 48))]
    push_cast
    rfl

theorem Atoi.fastLoop_some (s : List Nat) (hb : ∀ c ∈ s, c < 256) (n m : Int)
    (h : Atoi.fastLoop s n = some m) : ∀ c ∈ s, 48 ≤ c ∧ c ≤ 57 := by
  induction s generalizing n with
  | nil => simp
  | cons c s ih =>
    simp only [Atoi.fastLoop] at h
    split at h
    · simp at h
    · intro x hx
      rcases List.mem_cons.mp hx with rfl | hx
      · have := hb x (List.mem_cons_self _ _)
        omega
      · exact ih (fun y hy => hb y (List.mem_cons_of_mem _ hy)) _ h x hx

theorem natLiteral?_some {ds : List Nat} {u : Nat} (h : natLiteral? ds = some u) :
    ds ≠ [] ∧ (∀ c ∈ ds, 48 ≤ c ∧ c ≤ 57) ∧ u = digitsValue 0 ds := by
  unfold natLiteral? at h
  split at h
  · rename_i hc
    simp at h
    exact ⟨hc.1, hc.2, h.symm⟩
  · simp at h

theorem natLiteral?_of_digits {ds : List Nat} (hne : ds ≠ []) (hds : ∀ c ∈ ds, 48 ≤ c ∧ c ≤ 57) :
    natLiteral? ds = some (digitsValue 0 ds) := by
  unfold natLiteral?
  rw [if_pos ⟨hne, hds⟩]

/-- What `ParseUint` returns on an unsigned literal. -/
theorem ParseUint_literal (intSize : Nat) (hsize : intSize = 32 ∨ intSize = 64)
    (ds : List Nat) (u : Nat) (h : natLiteral? ds = some u) :
    ParseUint intSize ds =
      if u < 2 ^ intSize then (u, none) else (2 ^ intSize - 1, some .ErrRange) := by
  obtain ⟨hne, hds, rfl⟩ := natLiteral?_some h
  unfold ParseUint
  rw [if_neg hne]
  rcases hsize with rfl | rfl
  · have := ParseUint.loop_digits (2 ^ 32 - 1) (by norm_num) ds hds 0 (by norm_num)
    norm_num only at this ⊢
    rw [this]
    by_cases hle : digitsValue 0 ds ≤ 4294967295
    · rw [if_pos hle, if_pos (by omega)]
    · rw [if_neg hle, if_neg (by omega)]
  · have := ParseUint.loop_digits (2 ^ 64 - 1) (by norm_num) ds hds 0 (by norm_num)
    norm_num only at this ⊢
    rw [this]
    by_cases hle : digitsValue 0 ds ≤ 18446744073709551615
    · rw [if_pos hle, if_pos (by omega)]
    · rw [if_neg hle, if_neg (by omega)]

/-- When `ParseUint` reports no error, its argument is an unsigned literal. -/
theorem ParseUint_none (intSize : Nat) (s : List Nat) (h : (ParseUint intSize s).2 = none) :
    ∃ u, natLiteral? s = some u := by
  unfold ParseUint at h
  split at h
  · simp at h
  · rename_i hne
    refine ⟨_, natLiteral?_of_digits hne ?_⟩
    exact ParseUint.loop_none _ s 0 _ (Prod.ext rfl h)

theorem ParseUint_err (intSize : Nat) (hsize : intSize = 32 ∨ intSize = 64) (s : List Nat) :
    ((ParseUint intSize s).2 = some .ErrSyntax → (ParseUint intSize s).1 = 0) ∧
    ((ParseUint intSize s).2 = some .ErrRange → (ParseUint intSize s).1 = 2 ^ intSize - 1) := by
  unfold ParseUint
  split
  · simp
  · have := ParseUint.loop_err ((2 ^ intSize % 2 ^ 64 + 2 ^ 64 - 1) % 2 ^ 64) s 0
    rcases hsize with rfl | rfl <;> norm_num only at this ⊢ <;> exact this


/-- The string after the sign, as `ParseInt` and `Atoi` cut it. -/
theorem intLiteral?_some {s0 : List Nat} {v : Int} (h : intLiteral? s0 = some v) :
    s0 ≠ [] ∧ ∃ u, natLiteral?
      (if s0.head? = some 43 ∨ s0.head? = some 45 then s0.tail else s0) = some u ∧
      v = if s0.head? = some 45 then -(u : Int) else (u : Int) := by
  unfold intLiteral? at h
  by_cases h45 : s0.head? = some 45
  · rw [if_pos h45] at h
    have hne : s0 ≠ [] := by rintro rfl; simp at h45
    cases hn : natLiteral? s0.tail with
    | none => simp [hn] at h
    | some u =>
      simp [hn] at h
      exact ⟨hne, u, by simp [h45, hn], by simp [h45, h]⟩
  · rw [if_neg h45] at h
    by_cases h43 : s0.head? = some 43
    · rw [if_pos h43] at h
      have hne : s0 ≠ [] := by rintro rfl; simp at h43
      cases hn : natLiteral? s0.tail with
      | none => simp [hn] at h
      | some u =>
        simp [hn] at h
        exact ⟨hne, u, by simp [h43, hn], by simp [h45, h]⟩
    · rw [if_neg h43] at h
      cases hn : natLiteral? s0 with
      | none => simp [hn] at h
      | some u =>
        simp [hn] at h
        have hne : s0 ≠ [] := (natLiteral?_some hn).1
        exact ⟨hne, u, by simp [h43, h45, hn], by simp [h45, h]⟩

theorem intLiteral?_of_nat {s0 : List Nat} {u : Nat}
    (h : natLiteral? (if s0.head? = some 43 ∨ s0.head? = some 45 then s0.tail else s0) = some u) :
    intLiteral? s0 = some (if s0.head? = some 45 then -(u : Int) else (u : Int)) := by
  unfold intLiteral?
  by_cases h45 : s0.head? = some 45
  · simp [h45] at h ⊢
    simp [h]
  · by_cases h43 : s0.head? = some 43
    · simp [h43, h45] at h ⊢
      simp [h]
    · simp [h43, h45] at h ⊢
      simp [h]

/-- What `ParseInt` returns on an integer literal. -/
theorem ParseInt_literal (intSize : Nat) (hsize : intSize = 32 ∨ intSize = 64)
    (s0 : List Nat) (v : Int) (h : intLiteral? s0 = some v) :
    ParseInt intSize s0 =
      if (2 : Int) ^ (intSize - 1) ≤ v then ((2 : Int) ^ (intSize - 1) - 1, some .ErrRange)
      else if v < -(2 : Int) ^ (intSize - 1) then (-(2 : Int) ^ (intSize - 1), some .ErrRange)
      else (v, none) := by
  obtain ⟨hne, u, hu, rfl⟩ := intLiteral?_some h
  have hPU := ParseUint_literal intSize hsize _ u hu
  unfold ParseInt
  rw [if_neg hne]
  simp only [hPU]
  by_cases h45 : s0.head? = some 45 <;>
  rcases hsize with rfl | rfl <;>
  norm_num only [toInt64, negInt64] <;>
  simp only [h45, if_true, if_false, true_and, false_and, not_true, not_false_eq_true] <;>
  split_ifs <;> simp_all <;> omega


/-- When `ParseInt` reports no error, its argument is an integer literal. -/
theorem ParseInt_none (intSize : Nat) (hsize : intSize = 32 ∨ intSize = 64) (s0 : List Nat)
    (h : (ParseInt intSize s0).2 = none) : ∃ v, intLiteral? s0 = some v := by
  unfold ParseInt at h
  by_cases hnil : s0 = []
  · simp [hnil] at h
  · rw [if_neg hnil] at h
    simp only at h
    have herr := ParseUint_err intSize hsize
      (if s0.head? = some 43 ∨ s0.head? = some 45 then s0.tail else s0)
    cases he : (ParseUint intSize
        (if s0.head? = some 43 ∨ s0.head? = some 45 then s0.tail else s0)).2 with
    | none =>
      obtain ⟨u, hu⟩ := ParseUint_none intSize _ he
      exact ⟨_, intLiteral?_of_nat hu⟩
    | some e =>
      exfalso
      cases e with
      | ErrSyntax => simp [he] at h
      | ErrRange =>
        have hv := herr.2 he
        rw [he, hv] at h
        by_cases h45 : s0.head? = some 45 <;>
        rcases hsize with rfl | rfl <;>
        norm_num [h45] at h <;>
        simp at h

/-- The number `ParseInt` returns with an error. -/
theorem ParseInt_err (intSize : Nat) (hsize : intSize = 32 ∨ intSize = 64) (s0 : List Nat) :
    ((ParseInt intSize s0).2 = some .ErrSyntax → (ParseInt intSize s0).1 = 0) ∧
    ((ParseInt intSize s0).2 = some .ErrRange →
      (ParseInt intSize s0).1 = 2 ^ (intSize - 1) - 1 ∨
      (ParseInt intSize s0).1 = -2 ^ (intSize - 1)) := by
  unfold ParseInt
  by_cases hnil : s0 = []
  · simp [hnil]
  · rw [if_neg hnil]
    simp only
    generalize ParseUint intSize
      (if s0.head? = some 43 ∨ s0.head? = some 45 then s0.tail else s0) = r
    obtain ⟨un, err⟩ := r
    simp only
    by_cases h1 : err = some NumErr.ErrSyntax
    · simp [h1]
    · rw [if_neg h1]
      by_cases h2 : ¬ s0.head? = some 45 ∧ un ≥ 2 ^ (intSize - 1)
      · rw [if_pos h2]
        refine ⟨by simp, fun _ => Or.inl ?_⟩
        rcases hsize with rfl | rfl <;> norm_num
      · rw [if_neg h2]
        by_cases h3 : s0.head? = some 45 ∧ un > 2 ^ (intSize - 1)
        · rw [if_pos h3]
          refine ⟨by simp, fun _ => Or.inr ?_⟩
          rcases hsize with rfl | rfl <;> norm_num
        · rw [if_neg h3]
          simp

theorem toInt_of_range (intSize : Nat) (hsize : intSize = 32 ∨ intSize = 64) (x : Int)
    (h1 : -2 ^ (intSize - 1) ≤ x) (h2 : x < 2 ^ (intSize - 1)) : toInt intSize x = x := by
  unfold toInt
  rcases hsize with rfl | rfl <;> norm_num at h1 h2 ⊢ <;> omega

/-- What `Atoi` returns on an integer literal: the integer when it fits the
platform `int`, else the nearest bound with `ErrRange`. -/
theorem Atoi_literal (intSize : Nat) (hsize : intSize = 32 ∨ intSize = 64)
    (s0 : List Nat) (v : Int) (h : intLiteral? s0 = some v) :
    Atoi intSize s0 =
      if (2 : Int) ^ (intSize - 1) ≤ v then ((2 : Int) ^ (intSize - 1) - 1, some .ErrRange)
      else if v < -(2 : Int) ^ (intSize - 1) then (-(2 : Int) ^ (intSize - 1), some .ErrRange)
      else (v, none) := by
  unfold Atoi
  simp only
  split
  · rename_i hfast
    obtain ⟨hne, u, hu, rfl⟩ := intLiteral?_some h
    have hcut : (if s0.head? = some 45 ∨ s0.head? = some 43 then s0.tail else s0)
        = (if s0.head? = some 43 ∨ s0.head? = some 45 then s0.tail else s0) := by
      simp only [or_comm]
    rw [hcut]
    obtain ⟨hne2, hds, rfl⟩ := natLiteral?_some hu
    have hlen : ¬ (if s0.head? = some 43 ∨ s0.head? = some 45 then s0.tail else s0).length < 1 := by
      have := List.length_pos.mpr hne2
      omega
    rw [if_neg hlen]
    have hfl := Atoi.fastLoop_digits _ hds 0
    simp only [Nat.cast_zero] at hfl
    rw [hfl]
    simp only
    have hlt := digitsValue_lt 0 _ hds
    have hle : (if s0.head? = some 43 ∨ s0.head? = some 45 then s0.tail else s0).length
        ≤ s0.length := by
      split
      · simp
      · exact Nat.le_refl _
    rcases hfast with ⟨rfl, _, h9⟩ | ⟨rfl, _, h18⟩
    · have hpow : 10 ^ (if s0.head? = some 43 ∨ s0.head? = some 45 then s0.tail else s0).length
          ≤ 10 ^ 9 := Nat.pow_le_pow_right (by norm_num) (by omega)
      norm_num at hlt hpow ⊢
      split_ifs <;> simp_all <;> omega
    · have hpow : 10 ^ (if s0.head? = some 43 ∨ s0.head? = some 45 then s0.tail else s0).length
          ≤ 10 ^ 18 := Nat.pow_le_pow_right (by norm_num) (by omega)
      norm_num at hlt hpow ⊢
      split_ifs <;> simp_all <;> omega
  · rw [ParseInt_literal intSize hsize s0 v h]
    split_ifs with h1 h2
    · simp only [Prod.mk.injEq, and_true]
      apply toInt_of_range intSize hsize
      · rcases hsize with rfl | rfl <;> norm_num
      · rcases hsize with rfl | rfl <;> norm_num
    · simp only [Prod.mk.injEq, and_true]
      apply toInt_of_range intSize hsize
      · rcases hsize with rfl | rfl <;> norm_num
      · rcases hsize with rfl | rfl <;> norm_num
    · simp only [Prod.mk.injEq, and_true]
      apply toInt_of_range intSize hsize <;> omega

/-- When `Atoi` reports no error, its argument is an integer literal. -/
theorem Atoi_none (intSize : Nat) (hsize : intSize = 32 ∨ intSize = 64) (s0 : List Nat)
    (hb : ∀ c ∈ s0, c < 256) (h : (Atoi intSize s0).2 = none) :
    ∃ v, intLiteral? s0 = some v := by
  unfold Atoi at h
  simp only at h
  by_cases hfast : (intSize = 32 ∧ 0 < s0.length ∧ s0.length < 10) ∨
      (intSize = 64 ∧ 0 < s0.length ∧ s0.length < 19)
  · rw [if_pos hfast] at h
    have hcut : (if s0.head? = some 45 ∨ s0.head? = some 43 then s0.tail else s0)
        = (if s0.head? = some 43 ∨ s0.head? = some 45 then s0.tail else s0) := by
      simp only [or_comm]
    rw [hcut] at h
    have hb2 : ∀ c ∈ (if s0.head? = some 43 ∨ s0.head? = some 45 then s0.tail else s0),
        c < 256 := by
      intro c hc
      split at hc
      · exact hb c (List.mem_of_mem_tail hc)
      · exact hb c hc
    have key : ∀ s : List Nat, (∀ c ∈ s, c < 256) →
        (if s.length < 1 then ((0 : Int), some NumErr.ErrSyntax)
          else match Atoi.fastLoop s 0 with
            | none => (0, some NumErr.ErrSyntax)
            | some n => (if s0.head? = some 45 then -n else n, none)).2 = none →
        s ≠ [] ∧ ∀ c ∈ s, 48 ≤ c ∧ c ≤ 57 := by
      intro s hbs hs
      by_cases hlen : s.length < 1
      · simp [hlen] at hs
      · rw [if_neg hlen] at hs
        cases hfl : Atoi.fastLoop s 0 with
        | none => simp [hfl] at hs
        | some n =>
          refine ⟨?_, Atoi.fastLoop_some s hbs 0 n hfl⟩
          rintro rfl
          simp at hlen
    obtain ⟨hne, hds⟩ := key _ hb2 h
    exact ⟨_, intLiteral?_of_nat (natLiteral?_of_digits hne hds)⟩
  · rw [if_neg hfast] at h
    exact ParseInt_none intSize hsize s0 h

/-- The number `Atoi` returns with an error: 0 with `ErrSyntax`, a bound of the
platform `int` with `ErrRange`. -/
theorem Atoi_err (intSize : Nat) (hsize : intSize = 32 ∨ intSize = 64) (s0 : List Nat) :
    ((Atoi intSize s0).2 = some .ErrSyntax → (Atoi intSize s0).1 = 0) ∧
    ((Atoi intSize s0).2 = some .ErrRange →
      (Atoi intSize s0).1 = 2 ^ (intSize - 1) - 1 ∨ (Atoi intSize s0).1 = -2 ^ (intSize - 1)) := by
  unfold Atoi
  simp only
  by_cases hfast : (intSize = 32 ∧ 0 < s0.length ∧ s0.length < 10) ∨
      (intSize = 64 ∧ 0 < s0.length ∧ s0.length < 19)
  · rw [if_pos hfast]
    generalize (if s0.head? = some 45 ∨ s0.head? = some 43 then s0.tail else s0) = s
    by_cases hlen : s.length < 1
    · simp [hlen]
    · rw [if_neg hlen]
      cases Atoi.fastLoop s 0 <;> simp
  · rw [if_neg hfast]
    have := ParseInt_err intSize hsize s0
    constructor
    · intro he
      rw [this.1 he]
      rcases hsize with rfl | rfl <;> norm_num [toInt]
    · intro he
      rcases this.2 he with hv | hv <;> rw [hv]
      · left
        apply toInt_of_range intSize hsize
        · rcases hsize with rfl | rfl <;> norm_num
        · rcases hsize with rfl | rfl <;> norm_num
      · right
        apply toInt_of_range intSize hsize
        · rcases hsize with rfl | rfl <;> norm_num
        · rcases hsize with rfl | rfl <;> norm_num

theorem utf8Bytes_lt (ch : Char) : ∀ c ∈ utf8Bytes ch, c < 256 := by
  have hv : ch.toNat < 1114112 := by
    have := ch.valid
    simp only [Char.toNat, UInt32.isValidChar, Nat.isValidChar] at this ⊢
    omega
  intro c hc
  unfold utf8Bytes at hc
  simp only at hc
  split_ifs at hc <;> simp at hc <;> omega

theorem goBytes_lt (s : String) : ∀ c ∈ goBytes s, c < 256 := by
  intro c hc
  unfold goBytes at hc
  rw [List.mem_flatMap] at hc
  obtain ⟨ch, _, hch⟩ := hc
  exact utf8Bytes_lt ch c hch

/-! ## The normalizer loops on well-shaped value tuples -/

theorem valueString_of_wellShaped {Value : List JSON} (h : wellShaped Value) :
    valueString Value = .returns (valueOf Value) := by
  obtain ⟨s, hs⟩ := h
  simp [valueOf, hs]

theorem queryAFETrate_loop_eq {F : Type} (rt : Runtime F) (items : List (ResultItem afetMetric))
    (h : ∀ it ∈ items, wellShaped it.Value) (m : GoMap F) :
    queryAFETrate.loop rt items m = .returns (GoMap.setAll
      (items.map fun it => (it.Metric.FunctionName, floatOrNaN rt (valueOf it.Value))) m) := by
  induction items generalizing m with
  | nil => rfl
  | cons it rest ih =>
    have h1 := valueString_of_wellShaped (h it (List.mem_cons_self _ _))
    simp only [queryAFETrate.loop, h1]
    rw [ih (fun x hx => h x (List.mem_cons_of_mem _ hx))]
    rfl

theorem queryCPUusage_loop_eq {F : Type} (rt : Runtime F) (items : List (ResultItem cpuUsageMetric))
    (h : ∀ it ∈ items, wellShaped it.Value) (m : GoMap F) :
    queryCPUusage.loop rt items m = .returns (GoMap.setAll
      (items.map fun it => (it.Metric.Instance, floatOrNaN rt (valueOf it.Value))) m) := by
  induction items generalizing m with
  | nil => rfl
  | cons it rest ih =>
    have h1 := valueString_of_wellShaped (h it (List.mem_cons_self _ _))
    simp only [queryCPUusage.loop, h1]
    rw [ih (fun x hx => h x (List.mem_cons_of_mem _ hx))]
    rfl

theorem queryRAMusage_loop_eq {F : Type} (rt : Runtime F) (items : List (ResultItem ramUsageMetric))
    (h : ∀ it ∈ items, wellShaped it.Value) (m : GoMap F) :
    queryRAMusage.loop rt items m = .returns (GoMap.setAll
      (items.map fun it => (it.Metric.Instance, floatOrNaN rt (valueOf it.Value))) m) := by
  induction items generalizing m with
  | nil => rfl
  | cons it rest ih =>
    have h1 := valueString_of_wellShaped (h it (List.mem_cons_self _ _))
    simp only [queryRAMusage.loop, h1]
    rw [ih (fun x hx => h x (List.mem_cons_of_mem _ hx))]
    rfl

theorem GoMap.set_set {V : Type} (m : GoMap V) (k : String) (v w : V) :
    (m.set k v).set k w = m.set k w := by
  unfold GoMap.set
  rw [List.filter_cons_of_neg (by simp), List.filter_filter]
  simp

theorem queryInvocRate_loop_eq {F : Type} (rt : Runtime F)
    (items : List (ResultItem invocRateMetric))
    (h : ∀ it ∈ items, wellShaped it.Value) (m : GoMap (GoMap F)) :
    queryInvocRate.loop rt items m = .returns (GoMap.setAll
      (items.map fun it => (it.Metric.FunctionName,
        (GoMap.empty : GoMap F).set it.Metric.Code (floatOrNaN rt (valueOf it.Value)))) m) := by
  induction items generalizing m with
  | nil => rfl
  | cons it rest ih =>
    have h1 := valueString_of_wellShaped (h it (List.mem_cons_self _ _))
    simp only [queryInvocRate.loop, h1, GoMap.get_set, if_true, Option.getD_some,
      GoMap.set_set]
    rw [ih (fun x hx => h x (List.mem_cons_of_mem _ hx))]
    rfl

theorem queryServiceCount_loop_eq (intSize : Nat) (items : List (ResultItem serviceCountMetric))
    (h : ∀ it ∈ items, wellShaped it.Value) (m : GoMap Int) :
    queryServiceCount.loop intSize items m = .returns (GoMap.setAll
      (items.map fun it => (it.Metric.FunctionName,
        (Atoi intSize (goBytes (valueOf it.Value))).1)) m) := by
  induction items generalizing m with
  | nil => rfl
  | cons it rest ih =>
    have h1 := valueString_of_wellShaped (h it (List.mem_cons_self _ _))
    simp only [queryServiceCount.loop, h1]
    rw [ih (fun x hx => h x (List.mem_cons_of_mem _ hx))]
    rfl

/-- The keys of the map that stores every item in turn. -/
theorem setAll_keys_facts {α V : Type} (key : α → String) (val : α → V) (xs : List α) :
    (∀ k, ((GoMap.setAll (xs.map fun x => (key x, val x)) GoMap.empty).get k).isSome = true
        ↔ k ∈ xs.map key) ∧
    (GoMap.setAll (xs.map fun x => (key x, val x)) GoMap.empty).len
      = (xs.map key).dedup.length := by
  have hk : (xs.map fun x => (key x, val x)).map Prod.fst = xs.map key := by
    simp [List.map_map, Function.comp]
  constructor
  · intro k
    rw [GoMap.get_isSome_iff, GoMap.mem_keys_setAll, hk]
    simp [GoMap.empty, GoMap.keys]
  · rw [GoMap.len_setAll_empty, hk]

/-- A flat family on a well-shaped result list: the call returns the map that
stores every item in turn, and no error. -/
theorem FlatFamily.run_eq {F : Type} (fam : FlatFamily) (rt : Runtime F)
    (query strJSON : String) (items : List (String × List JSON))
    (hq : rt.Query query = .ok strJSON) (hd : fam.decode rt strJSON = .ok items)
    (hshape : ∀ it ∈ items, wellShaped it.2) :
    fam.run rt query = .returns ⟨some (GoMap.setAll
      (items.map fun it => (it.1, floatOrNaN rt (valueOf it.2))) GoMap.empty), none⟩ := by
  cases fam
  · simp only [FlatFamily.decode] at hd
    simp only [FlatFamily.run, queryAFETrate, hq]
    cases hu : Unmarshal rt afetMetric.field ⟨""⟩ strJSON with
    | error e => simp [hu] at hd
    | ok respObj =>
      simp only [hu, Except.ok.injEq] at hd
      subst hd
      have hs : ∀ it ∈ respObj.Data.Result, wellShaped it.Value := fun it hit =>
        hshape (it.Metric.FunctionName, it.Value) (List.mem_map.mpr ⟨it, hit, rfl⟩)
      simp only [queryAFETrate_loop_eq rt _ hs, returnResult, List.map_map]
      rfl
  · simp only [FlatFamily.decode] at hd
    simp only [FlatFamily.run, queryCPUusage, hq]
    cases hu : Unmarshal rt cpuUsageMetric.field ⟨""⟩ strJSON with
    | error e => simp [hu] at hd
    | ok respObj =>
      simp only [hu, Except.ok.injEq] at hd
      subst hd
      have hs : ∀ it ∈ respObj.Data.Result, wellShaped it.Value := fun it hit =>
        hshape (it.Metric.Instance, it.Value) (List.mem_map.mpr ⟨it, hit, rfl⟩)
      simp only [queryCPUusage_loop_eq rt _ hs, returnResult, List.map_map]
      rfl
  · simp only [FlatFamily.decode] at hd
    simp only [FlatFamily.run, queryRAMusage, hq]
    cases hu : Unmarshal rt ramUsageMetric.field ⟨""⟩ strJSON with
    | error e => simp [hu] at hd
    | ok respObj =>
      simp only [hu, Except.ok.injEq] at hd
      subst hd
      have hs : ∀ it ∈ respObj.Data.Result, wellShaped it.Value := fun it hit =>
        hshape (it.Metric.Instance, it.Value) (List.mem_map.mpr ⟨it, hit, rfl⟩)
      simp only [queryRAMusage_loop_eq rt _ hs, returnResult, List.map_map]
      rfl

theorem queryAFETrate_loop_shape {F : Type} (rt : Runtime F) (items : List (ResultItem afetMetric))
    (m0 m : GoMap F) (h : queryAFETrate.loop rt items m0 = .returns m) :
    ∀ it ∈ items, wellShaped it.Value := by
  induction items generalizing m0 with
  | nil => simp
  | cons it rest ih =>
    simp only [queryAFETrate.loop] at h
    cases hv : valueString it.Value with
    | panics p => simp [hv] at h
    | returns s =>
      simp only [hv] at h
      intro x hx
      rcases List.mem_cons.mp hx with rfl | hx
      · exact ⟨s, hv⟩
      · exact ih _ h x hx

theorem queryCPUusage_loop_shape {F : Type} (rt : Runtime F) (items : List (ResultItem cpuUsageMetric))
    (m0 m : GoMap F) (h : queryCPUusage.loop rt items m0 = .returns m) :
    ∀ it ∈ items, wellShaped it.Value := by
  induction items generalizing m0 with
  | nil => simp
  | cons it rest ih =>
    simp only [queryCPUusage.loop] at h
    cases hv : valueString it.Value with
    | panics p => simp [hv] at h
    | returns s =>
      simp only [hv] at h
      intro x hx
      rcases List.mem_cons.mp hx with rfl | hx
      · exact ⟨s, hv⟩
      · exact ih _ h x hx

theorem queryRAMusage_loop_shape {F : Type} (rt : Runtime F) (items : List (ResultItem ramUsageMetric))
    (m0 m : GoMap F) (h : queryRAMusage.loop rt items m0 = .returns m) :
    ∀ it ∈ items, wellShaped it.Value := by
  induction items generalizing m0 with
  | nil => simp
  | cons it rest ih =>
    simp only [queryRAMusage.loop] at h
    cases hv : valueString it.Value with
    | panics p => simp [hv] at h
    | returns s =>
      simp only [hv] at h
      intro x hx
      rcases List.mem_cons.mp hx with rfl | hx
      · exact ⟨s, hv⟩
      · exact ih _ h x hx

theorem queryInvocRate_loop_shape {F : Type} (rt : Runtime F) (items : List (ResultItem invocRateMetric))
    (m0 m : GoMap (GoMap F)) (h : queryInvocRate.loop rt items m0 = .returns m) :
    ∀ it ∈ items, wellShaped it.Value := by
  induction items generalizing m0 with
  | nil => simp
  | cons it rest ih =>
    simp only [queryInvocRate.loop] at h
    cases hv : valueString it.Value with
    | panics p => simp [hv] at h
    | returns s =>
      simp only [hv] at h
      intro x hx
      rcases List.mem_cons.mp hx with rfl | hx
      · exact ⟨s, hv⟩
      · exact ih _ h x hx

theorem queryServiceCount_loop_shape (intSize : Nat) (items : List (ResultItem serviceCountMetric))
    (m0 m : GoMap Int) (h : queryServiceCount.loop intSize items m0 = .returns m) :
    ∀ it ∈ items, wellShaped it.Value := by
  induction items generalizing m0 with
  | nil => simp
  | cons it rest ih =>
    simp only [queryServiceCount.loop] at h
    cases hv : valueString it.Value with
    | panics p => simp [hv] at h
    | returns s =>
      simp only [hv] at h
      intro x hx
      rcases List.mem_cons.mp hx with rfl | hx
      · exact ⟨s, hv⟩
      · exact ih _ h x hx

/-- A flat family returns only when every value tuple of the decoded list holds
a string at index 1. -/
theorem FlatFamily.flat_shape_of_returns {F : Type} (fam : FlatFamily) (rt : Runtime F)
    (query strJSON : String) (items : List (String × List JSON)) (r : MapErr (GoMap F))
    (hq : rt.Query query = .ok strJSON) (hd : fam.decode rt strJSON = .ok items)
    (h : fam.run rt query = .returns r) : ∀ it ∈ items, wellShaped it.2 := by
  cases fam
  · simp only [FlatFamily.decode] at hd
    simp only [FlatFamily.run, queryAFETrate, hq] at h
    cases hu : Unmarshal rt afetMetric.field ⟨""⟩ strJSON with
    | error e => simp [hu] at hd
    | ok respObj =>
      simp only [hu, Except.ok.injEq] at hd
      subst hd
      simp only [hu] at h
      cases hl : queryAFETrate.loop rt respObj.Data.Result GoMap.empty with
      | panics p => simp [hl, returnResult] at h
      | returns res =>
        intro it hit
        obtain ⟨it2, hit2, rfl⟩ := List.mem_map.mp hit
        exact queryAFETrate_loop_shape rt _ _ _ hl it2 hit2
  · simp only [FlatFamily.decode] at hd
    simp only [FlatFamily.run, queryCPUusage, hq] at h
    cases hu : Unmarshal rt cpuUsageMetric.field ⟨""⟩ strJSON with
    | error e => simp [hu] at hd
    | ok respObj =>
      simp only [hu, Except.ok.injEq] at hd
      subst hd
      simp only [hu] at h
      cases hl : queryCPUusage.loop rt respObj.Data.Result GoMap.empty with
      | panics p => simp [hl, returnResult] at h
      | returns res =>
        intro it hit
        obtain ⟨it2, hit2, rfl⟩ := List.mem_map.mp hit
        exact queryCPUusage_loop_shape rt _ _ _ hl it2 hit2
  · simp only [FlatFamily.decode] at hd
    simp only [FlatFamily.run, queryRAMusage, hq] at h
    cases hu : Unmarshal rt ramUsageMetric.field ⟨""⟩ strJSON with
    | error e => simp [hu] at hd
    | ok respObj =>
      simp only [hu, Except.ok.injEq] at hd
      subst hd
      simp only [hu] at h
      cases hl : queryRAMusage.loop rt respObj.Data.Result GoMap.empty with
      | panics p => simp [hl, returnResult] at h
      | returns res =>
        intro it hit
        obtain ⟨it2, hit2, rfl⟩ := List.mem_map.mp hit
        exact queryRAMusage_loop_shape rt _ _ _ hl it2 hit2

/-- A family returns only when every value tuple of the decoded list holds a
string at index 1. -/
theorem Family.shape_of_returns {F : Type} (fam : Family) (rt : Runtime F) (intSize : Nat)
    (query strJSON : String) (items : List (String × List JSON)) (r : MapErr (AnyMap F))
    (hq : rt.Query query = .ok strJSON) (hd : fam.decode rt strJSON = .ok items)
    (h : fam.run rt intSize query = .returns r) : ∀ it ∈ items, wellShaped it.2 := by
  cases fam
  · simp only [Family.decode] at hd
    simp only [Family.run, queryAFETrate, hq] at h
    cases hu : Unmarshal rt afetMetric.field ⟨""⟩ strJSON with
    | error e => simp [hu] at hd
    | ok respObj =>
      simp only [hu, Except.ok.injEq] at hd
      subst hd
      simp only [hu] at h
      cases hl : queryAFETrate.loop rt respObj.Data.Result GoMap.empty with
      | panics p => simp [hl, returnResult, asAnyMap] at h
      | returns res =>
        intro it hit
        obtain ⟨it2, hit2, rfl⟩ := List.mem_map.mp hit
        exact queryAFETrate_loop_shape rt _ _ _ hl it2 hit2
  · simp only [Family.decode] at hd
    simp only [Family.run, queryInvocRate, hq] at h
    cases hu : Unmarshal rt invocRateMetric.field ⟨"", ""⟩ strJSON with
    | error e => simp [hu] at hd
    | ok respObj =>
      simp only [hu, Except.ok.injEq] at hd
      subst hd
      simp only [hu] at h
      cases hl : queryInvocRate.loop rt respObj.Data.Result GoMap.empty with
      | panics p => simp [hl, returnResult, asAnyMap] at h
      | returns res =>
        intro it hit
        obtain ⟨it2, hit2, rfl⟩ := List.mem_map.mp hit
        exact queryInvocRate_loop_shape rt _ _ _ hl it2 hit2
  · simp only [Family.decode] at hd
    simp only [Family.run, queryServiceCount, hq] at h
    cases hu : Unmarshal rt serviceCountMetric.field ⟨""⟩ strJSON with
    | error e => simp [hu] at hd
    | ok respObj =>
      simp only [hu, Except.ok.injEq] at hd
      subst hd
      simp only [hu] at h
      cases hl : queryServiceCount.loop intSize respObj.Data.Result GoMap.empty with
      | panics p => simp [hl, returnResult, asAnyMap] at h
      | returns res =>
        intro it hit
        obtain ⟨it2, hit2, rfl⟩ := List.mem_map.mp hit
        exact queryServiceCount_loop_shape intSize _ _ _ hl it2 hit2
  · simp only [Family.decode] at hd
    simp only [Family.run, queryCPUusage, hq] at h
    cases hu : Unmarshal rt cpuUsageMetric.field ⟨""⟩ strJSON with
    | error e => simp [hu] at hd
    | ok respObj =>
      simp only [hu, Except.ok.injEq] at hd
      subst hd
      simp only [hu] at h
      cases hl : queryCPUusage.loop rt respObj.Data.Result GoMap.empty with
      | panics p => simp [hl, returnResult, asAnyMap] at h
      | returns res =>
        intro it hit
        obtain ⟨it2, hit2, rfl⟩ := List.mem_map.mp hit
        exact queryCPUusage_loop_shape rt _ _ _ hl it2 hit2
  · simp only [Family.decode] at hd
    simp only [Family.run, queryRAMusage, hq] at h
    cases hu : Unmarshal rt ramUsageMetric.field ⟨""⟩ strJSON with
    | error e => simp [hu] at hd
    | ok respObj =>
      simp only [hu, Except.ok.injEq] at hd
      subst hd
      simp only [hu] at h
      cases hl : queryRAMusage.loop rt respObj.Data.Result GoMap.empty with
      | panics p => simp [hl, returnResult, asAnyMap] at h
      | returns res =>
        intro it hit
        obtain ⟨it2, hit2, rfl⟩ := List.mem_map.mp hit
        exact queryRAMusage_loop_shape rt _ _ _ hl it2 hit2

/-- The entry of the last item with a given key, in the map that stores every
item in turn. -/
theorem get_setAll_items {V : Type} (f : String × List JSON → V)
    (pre post : List (String × List JSON)) (item : String × List JSON)
    (hlast : ∀ later ∈ post, later.1 ≠ item.1) :
    (GoMap.setAll ((pre ++ item :: post).map fun it => (it.1, f it)) GoMap.empty).get item.1
      = some (f item) := by
  rw [List.map_append, List.map_cons]
  apply GoMap.get_setAll_last
  simp only [List.map_map, List.mem_map, Function.comp, not_exists, not_and]
  intro later hl he
  exact hlast later hl he

/-! ## Claims -/

/-- C1: for each flat float-valued normalizer (queryAFETrate, queryCPUusage,
queryRAMusage) and every decoded result list: for every item whose value string
(the element at index 1 of its value tuple; the timestamp is not read) is a
valid float and whose key is not repeated by a later item, the map the call
returns has an entry at that key equal to the parsed float, and the error is
nil; the call does return a map when every value tuple holds a string at
index 1. An item followed by no item of the same key is the last item of its
key, so a repeated key holds the value of its last item. -/
theorem C1_flat_entry_is_parsed_float {F : Type} (fam : FlatFamily) (rt : Runtime F)
    (query strJSON : String) (pre post : List (String × List JSON))
    (item : String × List JSON) (s : String) (x : F)
    (hq : rt.Query query = .ok strJSON)
    (hd : fam.decode rt strJSON = .ok (pre ++ item :: post))
    (hlast : ∀ later ∈ post, later.1 ≠ item.1)
    (hs : valueString item.2 = .returns s)
    (hx : rt.ParseFloat s = .ok x) :
    ((∀ it ∈ pre ++ item :: post, wellShaped it.2) →
      ∃ m, fam.run rt query = .returns ⟨some m, none⟩) ∧
    (∀ r, fam.run rt query = .returns r →
      r.err = none ∧ ∃ m, r.result = some m ∧ m.get item.1 = some x) := by
  constructor
  · intro hshape
    exact ⟨_, FlatFamily.run_eq fam rt query strJSON _ hq hd hshape⟩
  · intro r hr
    have hshape := FlatFamily.flat_shape_of_returns fam rt query strJSON _ r hq hd hr
    have heq := FlatFamily.run_eq fam rt query strJSON _ hq hd hshape
    rw [hr, Outcome.returns.injEq] at heq
    subst heq
    refine ⟨rfl, _, rfl, ?_⟩
    rw [get_setAll_items (fun it => floatOrNaN rt (valueOf it.2)) pre post item hlast]
    simp [floatOrNaN, valueOf, hs, hx]

/-- Witness of C1: the body with `f1` ("1.5") and `f2` ("abc") under the AFET
shape; the call returns a map and `f1` has the entry 1.5. -/
theorem C1_flat_entry_is_parsed_float_witness :
    (sampleRuntime bodyF1F2).Query "q" = .ok "body" ∧
    FlatFamily.AFET.decode (sampleRuntime bodyF1F2) "body" =
      .ok ([] ++ ("f1", [.num "0", .str "1.5"]) :: [("f2", [.num "0", .str "abc"])]) ∧
    (sampleRuntime bodyF1F2).ParseFloat "1.5" = .ok (some "1.5") ∧
    ∃ m, FlatFamily.AFET.run (sampleRuntime bodyF1F2) "q" = .returns ⟨some m, none⟩ ∧
      m.get "f1" = some (some "1.5") := by
  have h := C1_flat_entry_is_parsed_float .AFET (sampleRuntime bodyF1F2) "q" "body" []
    [("f2", [.num "0", .str "abc"])] ("f1", [.num "0", .str "1.5"]) "1.5" (some "1.5")
    rfl rfl (by simp) rfl rfl
  obtain ⟨m, hm⟩ := h.1 (by simp [wellShaped, valueString, index, assertString])
  obtain ⟨_, m2, hm2, hget⟩ := h.2 _ hm
  simp only [Option.some.injEq] at hm2
  subst hm2
  exact ⟨rfl, rfl, rfl, m, hm, hget⟩

/-- C2: numeric-failure policy for floats. For each flat float-valued normalizer
and every decoded result list: when every value tuple holds a string at index 1
the call returns a map and no error, whether or not the value strings are valid
floats; and in the map the call returns, the last item with a given key yields
NaN when its value string is not a valid float, and its parsed float when it
is. -/
theorem C2_float_failure_is_NaN {F : Type} (fam : FlatFamily) (rt : Runtime F)
    (query strJSON : String) (items : List (String × List JSON))
    (hq : rt.Query query = .ok strJSON)
    (hd : fam.decode rt strJSON = .ok items) :
    ((∀ it ∈ items, wellShaped it.2) → ∃ m, fam.run rt query = .returns ⟨some m, none⟩) ∧
    (∀ r, fam.run rt query = .returns r →
      r.err = none ∧ ∃ m, r.result = some m ∧
        ∀ pre item post s, items = pre ++ item :: post →
          (∀ later ∈ post, later.1 ≠ item.1) → valueString item.2 = .returns s →
          (∀ e, rt.ParseFloat s = .error e → m.get item.1 = some rt.NaN) ∧
          (∀ x, rt.ParseFloat s = .ok x → m.get item.1 = some x)) := by
  constructor
  · intro hshape
    exact ⟨_, FlatFamily.run_eq fam rt query strJSON _ hq hd hshape⟩
  · intro r hr
    have hshape := FlatFamily.flat_shape_of_returns fam rt query strJSON _ r hq hd hr
    have heq := FlatFamily.run_eq fam rt query strJSON _ hq hd hshape
    rw [hr, Outcome.returns.injEq] at heq
    subst heq
    refine ⟨rfl, _, rfl, ?_⟩
    intro pre item post s hitems hlast hs
    subst hitems
    rw [get_setAll_items (fun it => floatOrNaN rt (valueOf it.2)) pre post item hlast]
    constructor
    · intro e he
      simp [floatOrNaN, valueOf, hs, he]
    · intro x hx
      simp [floatOrNaN, valueOf, hs, hx]

/-- Witness of C2: items (f1, "1.5"), (f2, "abc") under the AFET shape give
`f1 ↦ 1.5` and `f2 ↦ NaN`. -/
theorem C2_float_failure_is_NaN_witness :
    (sampleRuntime bodyF1F2).Query "q" = .ok "body" ∧
    FlatFamily.AFET.decode (sampleRuntime bodyF1F2) "body" =
      .ok [("f1", [.num "0", .str "1.5"]), ("f2", [.num "0", .str "abc"])] ∧
    ∃ m, FlatFamily.AFET.run (sampleRuntime bodyF1F2) "q" = .returns ⟨some m, none⟩ ∧
      m.get "f1" = some (some "1.5") ∧ m.get "f2" = some (sampleRuntime bodyF1F2).NaN := by
  have hC := C2_float_failure_is_NaN .AFET (sampleRuntime bodyF1F2) "q" "body"
    [("f1", [.num "0", .str "1.5"]), ("f2", [.num "0", .str "abc"])] rfl rfl
  obtain ⟨m, hm⟩ := hC.1 (by simp [wellShaped, valueString, index, assertString])
  obtain ⟨_, m2, hm2, h⟩ := hC.2 _ hm
  simp only [Option.some.injEq] at hm2
  subst hm2
  refine ⟨rfl, rfl, m, hm, ?_, ?_⟩
  · exact (h [] ("f1", [.num "0", .str "1.5"]) [("f2", [.num "0", .str "abc"])] "1.5" rfl
      (by simp) rfl).2 (some "1.5") rfl
  · exact (h [("f1", [.num "0", .str "1.5"])] ("f2", [.num "0", .str "abc"]) [] "abc" rfl
      (by simp) rfl).1 _ rfl

/-- The key set of the map a family returns on a well-shaped result list. -/
theorem Family.run_key_set {F : Type} (fam : Family) (rt : Runtime F) (intSize : Nat)
    (query strJSON : String) (items : List (String × List JSON))
    (hq : rt.Query query = .ok strJSON)
    (hd : fam.decode rt strJSON = .ok items)
    (hshape : ∀ it ∈ items, wellShaped it.2) :
    ∃ m, fam.run rt intSize query = .returns ⟨some m, none⟩ ∧
      (∀ k, m.has k = true ↔ ∃ it ∈ items, it.1 = k) ∧
      m.len = (items.map Prod.fst).dedup.length ∧
      (items = [] → m.len = 0) := by
  cases fam
  · simp only [Family.decode] at hd
    simp only [Family.run, queryAFETrate, hq]
    cases hu : Unmarshal rt afetMetric.field ⟨""⟩ strJSON with
    | error e => simp [hu] at hd
    | ok respObj =>
      simp only [hu, Except.ok.injEq] at hd
      subst hd
      have hs : ∀ it ∈ respObj.Data.Result, wellShaped it.Value := fun it hit =>
        hshape (it.Metric.FunctionName, it.Value) (List.mem_map.mpr ⟨it, hit, rfl⟩)
      simp only [queryAFETrate_loop_eq rt _ hs, returnResult, asAnyMap, Option.map_some']
      refine ⟨_, rfl, ?_, ?_, ?_⟩
      · intro k
        simp only [AnyMap.has]
        rw [(setAll_keys_facts _ _ respObj.Data.Result).1 k]
        simp only [List.mem_map, Prod.exists, exists_and_right, exists_eq_right]
        constructor
        · rintro ⟨it, hit, rfl⟩
          exact ⟨it.Value, it, hit, rfl⟩
        · rintro ⟨v, it, hit, he⟩
          exact ⟨it, hit, by rw [Prod.mk.injEq] at he; exact he.1⟩
      · simp only [AnyMap.len]
        rw [(setAll_keys_facts _ _ respObj.Data.Result).2, List.map_map]
        rfl
      · intro hnil
        rw [List.map_eq_nil_iff] at hnil
        simp only [AnyMap.len, hnil]
        rfl
  · simp only [Family.decode] at hd
    simp only [Family.run, queryInvocRate, hq]
    cases hu : Unmarshal rt invocRateMetric.field ⟨"", ""⟩ strJSON with
    | error e => simp [hu] at hd
    | ok respObj =>
      simp only [hu, Except.ok.injEq] at hd
      subst hd
      have hs : ∀ it ∈ respObj.Data.Result, wellShaped it.Value := fun it hit =>
        hshape (it.Metric.FunctionName, it.Value) (List.mem_map.mpr ⟨it, hit, rfl⟩)
      simp only [queryInvocRate_loop_eq rt _ hs, returnResult, asAnyMap, Option.map_some']
      refine ⟨_, rfl, ?_, ?_, ?_⟩
      · intro k
        simp only [AnyMap.has]
        rw [(setAll_keys_facts _ _ respObj.Data.Result).1 k]
        simp only [List.mem_map, Prod.exists, exists_and_right, exists_eq_right]
        constructor
        · rintro ⟨it, hit, rfl⟩
          exact ⟨it.Value, it, hit, rfl⟩
        · rintro ⟨v, it, hit, he⟩
          exact ⟨it, hit, by rw [Prod.mk.injEq] at he; exact he.1⟩
      · simp only [AnyMap.len]
        rw [(setAll_keys_facts _ _ respObj.Data.Result).2, List.map_map]
        rfl
      · intro hnil
        rw [List.map_eq_nil_iff] at hnil
        simp only [AnyMap.len, hnil]
        rfl
  · simp only [Family.decode] at hd
    simp only [Family.run, queryServiceCount, hq]
    cases hu : Unmarshal rt serviceCountMetric.field ⟨""⟩ strJSON with
    | error e => simp [hu] at hd
    | ok respObj =>
      simp only [hu, Except.ok.injEq] at hd
      subst hd
      have hs : ∀ it ∈ respObj.Data.Result, wellShaped it.Value := fun it hit =>
        hshape (it.Metric.FunctionName, it.Value) (List.mem_map.mpr ⟨it, hit, rfl⟩)
      simp only [queryServiceCount_loop_eq intSize _ hs, returnResult, asAnyMap, Option.map_some']
      refine ⟨_, rfl, ?_, ?_, ?_⟩
      · intro k
        simp only [AnyMap.has]
        rw [(setAll_keys_facts _ _ respObj.Data.Result).1 k]
        simp only [List.mem_map, Prod.exists, exists_and_right, exists_eq_right]
        constructor
        · rintro ⟨it, hit, rfl⟩
          exact ⟨it.Value, it, hit, rfl⟩
        · rintro ⟨v, it, hit, he⟩
          exact ⟨it, hit, by rw [Prod.mk.injEq] at he; exact he.1⟩
      · simp only [AnyMap.len]
        rw [(setAll_keys_facts _ _ respObj.Data.Result).2, List.map_map]
        rfl
      · intro hnil
        rw [List.map_eq_nil_iff] at hnil
        simp only [AnyMap.len, hnil]
        rfl
  · simp only [Family.decode] at hd
    simp only [Family.run, queryCPUusage, hq]
    cases hu : Unmarshal rt cpuUsageMetric.field ⟨""⟩ strJSON with
    | error e => simp [hu] at hd
    | ok respObj =>
      simp only [hu, Except.ok.injEq] at hd
      subst hd
      have hs : ∀ it ∈ respObj.Data.Result, wellShaped it.Value := fun it hit =>
        hshape (it.Metric.Instance, it.Value) (List.mem_map.mpr ⟨it, hit, rfl⟩)
      simp only [queryCPUusage_loop_eq rt _ hs, returnResult, asAnyMap, Option.map_some']
      refine ⟨_, rfl, ?_, ?_, ?_⟩
      · intro k
        simp only [AnyMap.has]
        rw [(setAll_keys_facts _ _ respObj.Data.Result).1 k]
        simp only [List.mem_map, Prod.exists, exists_and_right, exists_eq_right]
        constructor
        · rintro ⟨it, hit, rfl⟩
          exact ⟨it.Value, it, hit, rfl⟩
        · rintro ⟨v, it, hit, he⟩
          exact ⟨it, hit, by rw [Prod.mk.injEq] at he; exact he.1⟩
      · simp only [AnyMap.len]
        rw [(setAll_keys_facts _ _ respObj.Data.Result).2, List.map_map]
        rfl
      · intro hnil
        rw [List.map_eq_nil_iff] at hnil
        simp only [AnyMap.len, hnil]
        rfl
  · simp only [Family.decode] at hd
    simp only [Family.run, queryRAMusage, hq]
    cases hu : Unmarshal rt ramUsageMetric.field ⟨""⟩ strJSON with
    | error e => simp [hu] at hd
    | ok respObj =>
      simp only [hu, Except.ok.injEq] at hd
      subst hd
      have hs : ∀ it ∈ respObj.Data.Result, wellShaped it.Value := fun it hit =>
        hshape (it.Metric.Instance, it.Value) (List.mem_map.mpr ⟨it, hit, rfl⟩)
      simp only [queryRAMusage_loop_eq rt _ hs, returnResult, asAnyMap, Option.map_some']
      refine ⟨_, rfl, ?_, ?_, ?_⟩
      · intro k
        simp only [AnyMap.has]
        rw [(setAll_keys_facts _ _ respObj.Data.Result).1 k]
        simp only [List.mem_map, Prod.exists, exists_and_right, exists_eq_right]
        constructor
        · rintro ⟨it, hit, rfl⟩
          exact ⟨it.Value, it, hit, rfl⟩
        · rintro ⟨v, it, hit, he⟩
          exact ⟨it, hit, by rw [Prod.mk.injEq] at he; exact he.1⟩
      · simp only [AnyMap.len]
        rw [(setAll_keys_facts _ _ respObj.Data.Result).2, List.map_map]
        rfl
      · intro hnil
        rw [List.map_eq_nil_iff] at hnil
        simp only [AnyMap.len, hnil]
        rfl

/-- C4: key-set exactness. For each of the five normalizers and every decoded
result list: when every value tuple holds a string at index 1 the call returns a
map and no error; and in the map the call returns, a key is present in the
(outer) map exactly when some item carries it as its entity name, the map has
one entry per distinct entity name whatever the number of items that name it and
whether or not their values parse, and an empty result list gives an empty map. -/
theorem C4_key_set_exact {F : Type} (fam : Family) (rt : Runtime F) (intSize : Nat)
    (query strJSON : String) (items : List (String × List JSON))
    (hq : rt.Query query = .ok strJSON)
    (hd : fam.decode rt strJSON = .ok items) :
    ((∀ it ∈ items, wellShaped it.2) →
      ∃ m, fam.run rt intSize query = .returns ⟨some m, none⟩) ∧
    (∀ r, fam.run rt intSize query = .returns r →
      r.err = none ∧ ∃ m, r.result = some m ∧
        (∀ k, m.has k = true ↔ ∃ it ∈ items, it.1 = k) ∧
        m.len = (items.map Prod.fst).dedup.length ∧
        (items = [] → m.len = 0)) := by
  constructor
  · intro hshape
    obtain ⟨m, hm, _⟩ := Family.run_key_set fam rt intSize query strJSON items hq hd hshape
    exact ⟨m, hm⟩
  · intro r hr
    have hshape := Family.shape_of_returns fam rt intSize query strJSON _ r hq hd hr
    obtain ⟨m, hm, hk⟩ := Family.run_key_set fam rt intSize query strJSON items hq hd hshape
    rw [hr, Outcome.returns.injEq] at hm
    subst hm
    exact ⟨rfl, m, rfl, hk⟩

/-- Witness of C4: service counts of the items f1, f2, f1: the map has the keys
`f1` and `f2`, no key `f3`, and two entries. -/
theorem C4_key_set_exact_witness :
    (sampleRuntime bodyF1F2F1).Query "q" = .ok "body" ∧
    Family.ServiceCount.decode (sampleRuntime bodyF1F2F1) "body" =
      .ok [("f1", [.num "0", .str "1"]), ("f2", [.num "0", .str "abc"]),
        ("f1", [.num "0", .str "2"])] ∧
    ∃ m, Family.ServiceCount.run (sampleRuntime bodyF1F2F1) 64 "q" = .returns ⟨some m, none⟩ ∧
      m.has "f1" = true ∧ m.has "f2" = true ∧ m.has "f3" = false ∧ m.len = 2 := by
  refine ⟨rfl, rfl, ?_⟩
  have hC := C4_key_set_exact Family.ServiceCount (sampleRuntime bodyF1F2F1)
    64 "q" "body" [("f1", [.num "0", .str "1"]), ("f2", [.num "0", .str "abc"]),
      ("f1", [.num "0", .str "2"])] rfl rfl
  obtain ⟨m, hm⟩ := hC.1 (by simp [wellShaped, valueString, index, assertString])
  obtain ⟨_, m2, hm2, hk, hl, _⟩ := hC.2 _ hm
  simp only [Option.some.injEq] at hm2
  subst hm2
  refine ⟨m, hm, (hk "f1").mpr (by simp), (hk "f2").mpr (by simp), ?_, ?_⟩
  · rw [Bool.eq_false_iff]
    intro h
    have := (hk "f3").mp h
    simp at this
  · rw [hl]
    decide

/-- C3 (code bug): on the one item f1 / 200 / "3.0" queryInvocRate returns
`f1 ↦ (200 ↦ 3.0)`, but on f1 / 200 / "3.0" followed by f1 / 500 / "1.0" it
returns `f1 ↦ (500 ↦ 1.0)`: the entry of status code 200 is gone. -/
theorem C3_invoc_rate_second_code_drops_first :
    queryInvocRate (sampleRuntime bodyOneCode) "q"
      = .returns ⟨some [("f1", [("200", some "3.0")])], none⟩ ∧
    queryInvocRate (sampleRuntime bodyTwoCodes) "q"
      = .returns ⟨some [("f1", [("500", some "1.0")])], none⟩ ∧
    (GoMap.get [("f1", [("500", some "1.0")])] "f1").bind (fun inner => GoMap.get inner "200")
      = (none : Option (Option String)) :=
  ⟨rfl, rfl, rfl⟩

/-- The public operation of a family is its query function on the expression
it builds. -/
theorem Family.Query_eq_run {F : Type} (fam : Family) (rt : Runtime F) (intSize : Nat)
    (timeSpan : Int) : fam.Query rt intSize timeSpan = fam.run rt intSize (fam.queryText timeSpan) := by
  cases fam <;> rfl

/-- The three ways a query function ends before its loop, and what a returned
map implies. -/
theorem Family.run_cases {F : Type} (fam : Family) (rt : Runtime F) (intSize : Nat)
    (query : String) :
    (∀ e, rt.Query query = .error e →
      ∀ parse, fam.run { rt with jsonParse := parse } intSize query
        = .returns ⟨none, some e⟩) ∧
    (∀ strJSON e, rt.Query query = .ok strJSON → fam.decode rt strJSON = .error e →
      fam.run rt intSize query = .returns ⟨none, some (.Wrap e deserializeMsg)⟩) ∧
    (∀ m err, fam.run rt intSize query = .returns ⟨some m, err⟩ →
      err = none ∧ ∃ strJSON items, rt.Query query = .ok strJSON ∧
        fam.decode rt strJSON = .ok items) := by
  refine ⟨?_, ?_, ?_⟩
  · intro e he parse
    cases fam <;>
    simp [Family.run, queryAFETrate, queryInvocRate, queryServiceCount, queryCPUusage,
      queryRAMusage, he, asAnyMap]
  · intro strJSON e hq hd
    cases fam
    · simp only [Family.decode] at hd
      cases hu : Unmarshal rt afetMetric.field ⟨""⟩ strJSON with
      | ok r => simp [hu] at hd
      | error e2 =>
        simp only [hu, Except.error.injEq] at hd
        simp [Family.run, queryAFETrate, hq, hu, hd, asAnyMap]
    · simp only [Family.decode] at hd
      cases hu : Unmarshal rt invocRateMetric.field ⟨"", ""⟩ strJSON with
      | ok r => simp [hu] at hd
      | error e2 =>
        simp only [hu, Except.error.injEq] at hd
        simp [Family.run, queryInvocRate, hq, hu, hd, asAnyMap]
    · simp only [Family.decode] at hd
      cases hu : Unmarshal rt serviceCountMetric.field ⟨""⟩ strJSON with
      | ok r => simp [hu] at hd
      | error e2 =>
        simp only [hu, Except.error.injEq] at hd
        simp [Family.run, queryServiceCount, hq, hu, hd, asAnyMap]
    · simp only [Family.decode] at hd
      cases hu : Unmarshal rt cpuUsageMetric.field ⟨""⟩ strJSON with
      | ok r => simp [hu] at hd
      | error e2 =>
        simp only [hu, Except.error.injEq] at hd
        simp [Family.run, queryCPUusage, hq, hu, hd, asAnyMap]
    · simp only [Family.decode] at hd
      cases hu : Unmarshal rt ramUsageMetric.field ⟨""⟩ strJSON with
      | ok r => simp [hu] at hd
      | error e2 =>
        simp only [hu, Except.error.injEq] at hd
        simp [Family.run, queryRAMusage, hq, hu, hd, asAnyMap]
  · intro m err h
    cases hq : rt.Query query with
    | error e =>
      exfalso
      cases fam <;>
      simp [Family.run, queryAFETrate, queryInvocRate, queryServiceCount, queryCPUusage,
        queryRAMusage, hq, asAnyMap] at h
    | ok strJSON =>
      cases fam
      · cases hu : Unmarshal rt afetMetric.field ⟨""⟩ strJSON with
        | error e => simp [Family.run, queryAFETrate, hq, hu, asAnyMap] at h
        | ok r =>
          refine ⟨?_, strJSON, _, rfl, by simp only [Family.decode, hu]; rfl⟩
          simp only [Family.run, queryAFETrate, hq, hu] at h
          cases hl : queryAFETrate.loop rt r.Data.Result GoMap.empty with
          | panics p => simp [hl, returnResult, asAnyMap] at h
          | returns res => simp [hl, returnResult, asAnyMap] at h; exact h.2.symm
      · cases hu : Unmarshal rt invocRateMetric.field ⟨"", ""⟩ strJSON with
        | error e => simp [Family.run, queryInvocRate, hq, hu, asAnyMap] at h
        | ok r =>
          refine ⟨?_, strJSON, _, rfl, by simp only [Family.decode, hu]; rfl⟩
          simp only [Family.run, queryInvocRate, hq, hu] at h
          cases hl : queryInvocRate.loop rt r.Data.Result GoMap.empty with
          | panics p => simp [hl, returnResult, asAnyMap] at h
          | returns res => simp [hl, returnResult, asAnyMap] at h; exact h.2.symm
      · cases hu : Unmarshal rt serviceCountMetric.field ⟨""⟩ strJSON with
        | error e => simp [Family.run, queryServiceCount, hq, hu, asAnyMap] at h
        | ok r =>
          refine ⟨?_, strJSON, _, rfl, by simp only [Family.decode, hu]; rfl⟩
          simp only [Family.run, queryServiceCount, hq, hu] at h
          cases hl : queryServiceCount.loop intSize r.Data.Result GoMap.empty with
          | panics p => simp [hl, returnResult, asAnyMap] at h
          | returns res => simp [hl, returnResult, asAnyMap] at h; exact h.2.symm
      · cases hu : Unmarshal rt cpuUsageMetric.field ⟨""⟩ strJSON with
        | error e => simp [Family.run, queryCPUusage, hq, hu, asAnyMap] at h
        | ok r =>
          refine ⟨?_, strJSON, _, rfl, by simp only [Family.decode, hu]; rfl⟩
          simp only [Family.run, queryCPUusage, hq, hu] at h
          cases hl : queryCPUusage.loop rt r.Data.Result GoMap.empty with
          | panics p => simp [hl, returnResult, asAnyMap] at h
          | returns res => simp [hl, returnResult, asAnyMap] at h; exact h.2.symm
      · cases hu : Unmarshal rt ramUsageMetric.field ⟨""⟩ strJSON with
        | error e => simp [Family.run, queryRAMusage, hq, hu, asAnyMap] at h
        | ok r =>
          refine ⟨?_, strJSON, _, rfl, by simp only [Family.decode, hu]; rfl⟩
          simp only [Family.run, queryRAMusage, hq, hu] at h
          cases hl : queryRAMusage.loop rt r.Data.Result GoMap.empty with
          | panics p => simp [hl, returnResult, asAnyMap] at h
          | returns res => simp [hl, returnResult, asAnyMap] at h; exact h.2.symm

/-- C5: no map on a fatal error. For each of the five public operations
(QueryAFET, QueryInvoc, QueryServiceCount, QueryCPUusage, QueryRAMusage): (i) if
the executor returns an error, the operation returns exactly that error and a nil
map, whatever the JSON parser is; (ii) if the executor succeeds and decoding the
body fails, the operation returns the decoding error wrapped, and a nil map;
(iii) if the operation returns a map, the executor and the decoder both
succeeded and the error is nil. -/
theorem C5_no_map_on_fatal_error {F : Type} (fam : Family) (rt : Runtime F) (intSize : Nat)
    (timeSpan : Int) :
    (∀ e, rt.Query (fam.queryText timeSpan) = .error e →
      ∀ parse, fam.Query { rt with jsonParse := parse } intSize timeSpan
        = .returns ⟨none, some e⟩) ∧
    (∀ strJSON e, rt.Query (fam.queryText timeSpan) = .ok strJSON →
      fam.decode rt strJSON = .error e →
      fam.Query rt intSize timeSpan = .returns ⟨none, some (.Wrap e deserializeMsg)⟩) ∧
    (∀ m err, fam.Query rt intSize timeSpan = .returns ⟨some m, err⟩ →
      err = none ∧ ∃ strJSON items, rt.Query (fam.queryText timeSpan) = .ok strJSON ∧
        fam.decode rt strJSON = .ok items) := by
  have h := Family.run_cases fam rt intSize (fam.queryText timeSpan)
  refine ⟨?_, ?_, ?_⟩
  · intro e he parse
    rw [Family.Query_eq_run]
    exact h.1 e he parse
  · intro strJSON e hq hd
    rw [Family.Query_eq_run]
    exact h.2.1 strJSON e hq hd
  · intro m err hm
    rw [Family.Query_eq_run] at hm
    exact h.2.2 m err hm

/-- Witness of C5: an unreachable backend makes QueryRAMusage return the
transport error and no map; the empty body makes QueryInvoc return the wrapped
parse error and no map. -/
theorem C5_no_map_on_fatal_error_witness :
    Family.RAMusage.Query unreachableRuntime 64 (5 * Minute)
      = .returns ⟨none, some (.Wrap (.base "dial tcp: connection refused")
          "Error while performing an HTTP request to the Prometheus API endpoint")⟩ ∧
    Family.InvocRate.Query emptyBodyRuntime 64 (5 * Minute)
      = .returns ⟨none, some (.Wrap (.base "unexpected end of JSON input") deserializeMsg)⟩ :=
  ⟨(C5_no_map_on_fatal_error Family.RAMusage unreachableRuntime 64 (5 * Minute)).1 _ rfl
      unreachableRuntime.jsonParse,
    (C5_no_map_on_fatal_error Family.InvocRate emptyBodyRuntime 64 (5 * Minute)).2.1 "" _
      rfl rfl⟩

/-- The entry of the last item with a given key, for items of any type. -/
theorem get_setAll_map {α V : Type} (key : α → String) (val : α → V) (pre post : List α)
    (x : α) (hlast : ∀ y ∈ post, key y ≠ key x) :
    (GoMap.setAll ((pre ++ x :: post).map fun a => (key a, val a)) GoMap.empty).get (key x)
      = some (val x) := by
  rw [List.map_append, List.map_cons]
  apply GoMap.get_setAll_last
  simp only [List.map_map, List.mem_map, Function.comp, not_exists, not_and]
  intro y hy he
  exact hlast y hy he

/-- C6, counterexample: "99999999999999999999" fails to parse as an `int`
(`ErrRange`), and the entry queryServiceCount stores for it on a 64-bit
platform is 9223372036854775807, not 0. -/
theorem C6_out_of_range_is_not_zero :
    (Atoi 64 (goBytes "99999999999999999999")).2 = some .ErrRange ∧
    queryServiceCount (sampleRuntime bodyCounts) 64 "q"
      = .returns ⟨some [("f5", 0), ("f4", 0), ("f3", 9223372036854775807), ("f2", 0),
          ("f1", 12)], none⟩ ∧
    GoMap.get [("f5", 0), ("f4", 0), ("f3", (9223372036854775807 : Int)), ("f2", 0),
      ("f1", 12)] "f3" ≠ some 0 := by
  refine ⟨by decide, by decide, by decide⟩

/-- C6, amended: numeric-failure policy for integers. For every decoded result
list, queryServiceCount returns a map and no error when every value tuple holds
a string at index 1, and in the map it returns the last item with a given
function name yields the number `strconv.Atoi` returns for its value string, the
error being dropped: 0 when the failure is a syntax error; the largest `int` for
a literal above the range of the platform `int` and the smallest `int` for one
below it; and exactly the integer the literal denotes when it parses. The value
string parses exactly when it is a decimal literal within the range of the
platform `int`. -/
theorem C6_int_failure_policy {F : Type} (rt : Runtime F) (intSize : Nat)
    (query strJSON : String) (respObj : serviceCountResponse)
    (hsize : intSize = 32 ∨ intSize = 64)
    (hq : rt.Query query = .ok strJSON)
    (hd : Unmarshal rt serviceCountMetric.field ⟨""⟩ strJSON = .ok respObj) :
    ((∀ it ∈ respObj.Data.Result, wellShaped it.Value) →
      ∃ m, queryServiceCount rt intSize query = .returns ⟨some m, none⟩) ∧
    ∀ r, queryServiceCount rt intSize query = .returns r →
      r.err = none ∧ ∃ m, r.result = some m ∧
      ∀ pre item post s, respObj.Data.Result = pre ++ item :: post →
        (∀ later ∈ post, later.Metric.FunctionName ≠ item.Metric.FunctionName) →
        valueString item.Value = .returns s →
        m.get item.Metric.FunctionName = some (Atoi intSize (goBytes s)).1 ∧
        ((Atoi intSize (goBytes s)).2 = some .ErrSyntax →
          m.get item.Metric.FunctionName = some 0) ∧
        ((Atoi intSize (goBytes s)).2 = some .ErrRange →
          m.get item.Metric.FunctionName = some (2 ^ (intSize - 1) - 1) ∨
          m.get item.Metric.FunctionName = some (-2 ^ (intSize - 1))) ∧
        ((Atoi intSize (goBytes s)).2 = none →
          ∃ v, intLiteral? (goBytes s) = some v ∧ -2 ^ (intSize - 1) ≤ v ∧
            v < 2 ^ (intSize - 1) ∧ m.get item.Metric.FunctionName = some v) ∧
        (∀ v, intLiteral? (goBytes s) = some v →
          (-2 ^ (intSize - 1) ≤ v → v < 2 ^ (intSize - 1) →
            (Atoi intSize (goBytes s)).2 = none ∧
            m.get item.Metric.FunctionName = some v) ∧
          (2 ^ (intSize - 1) ≤ v →
            (Atoi intSize (goBytes s)).2 = some .ErrRange ∧
            m.get item.Metric.FunctionName = some (2 ^ (intSize - 1) - 1)) ∧
          (v < -2 ^ (intSize - 1) →
            (Atoi intSize (goBytes s)).2 = some .ErrRange ∧
            m.get item.Metric.FunctionName = some (-2 ^ (intSize - 1)))) := by
  have hrun : (∀ it ∈ respObj.Data.Result, wellShaped it.Value) →
      queryServiceCount rt intSize query = .returns ⟨some (GoMap.setAll
        (respObj.Data.Result.map fun it => (it.Metric.FunctionName,
          (Atoi intSize (goBytes (valueOf it.Value))).1)) GoMap.empty), none⟩ := by
    intro hshape
    simp only [queryServiceCount, hq, hd, queryServiceCount_loop_eq intSize _ hshape,
      returnResult]
  refine ⟨fun hshape => ⟨_, hrun hshape⟩, ?_⟩
  intro r hr
  have hshape : ∀ it ∈ respObj.Data.Result, wellShaped it.Value := by
    have h2 := hr
    simp only [queryServiceCount, hq, hd] at h2
    cases hl : queryServiceCount.loop intSize respObj.Data.Result GoMap.empty with
    | panics p => simp [hl, returnResult] at h2
    | returns res => exact queryServiceCount_loop_shape intSize _ _ _ hl
  have heq := hrun hshape
  rw [hr, Outcome.returns.injEq] at heq
  subst heq
  refine ⟨rfl, _, rfl, ?_⟩
  · intro pre item post s hres hlast hs
    have hv : valueOf item.Value = s := by simp [valueOf, hs]
    have hget := get_setAll_map (fun it : ResultItem serviceCountMetric => it.Metric.FunctionName)
      (fun it => (Atoi intSize (goBytes (valueOf it.Value))).1) pre post item hlast
    beta_reduce at hget
    rw [hv, ← hres] at hget
    rw [hget]
    have hlit : ∀ v, intLiteral? (goBytes s) = some v →
        Atoi intSize (goBytes s) =
          if (2 : Int) ^ (intSize - 1) ≤ v then ((2 : Int) ^ (intSize - 1) - 1, some .ErrRange)
          else if v < -(2 : Int) ^ (intSize - 1) then
            (-(2 : Int) ^ (intSize - 1), some .ErrRange)
          else (v, none) := fun v hv => Atoi_literal intSize hsize _ v hv
    have herr := Atoi_err intSize hsize (goBytes s)
    refine ⟨rfl, ?_, ?_, ?_, ?_⟩
    · intro he
      rw [herr.1 he]
    · intro he
      rcases herr.2 he with h | h
      · exact Or.inl (by rw [h])
      · exact Or.inr (by rw [h])
    · intro he
      obtain ⟨v, hv⟩ := Atoi_none intSize hsize _ (goBytes_lt s) he
      have h := hlit v hv
      refine ⟨v, hv, ?_⟩
      by_cases h1 : (2 : Int) ^ (intSize - 1) ≤ v
      · rw [h, if_pos h1] at he
        simp at he
      · by_cases h2 : v < -(2 : Int) ^ (intSize - 1)
        · rw [h, if_neg h1, if_pos h2] at he
          simp at he
        · rw [h, if_neg h1, if_neg h2]
          exact ⟨by omega, by omega, rfl⟩
    · intro v hv
      have h := hlit v hv
      refine ⟨?_, ?_, ?_⟩
      · intro h1 h2
        rw [h, if_neg (by omega), if_neg (by omega)]
        exact ⟨rfl, rfl⟩
      · intro h1
        rw [h, if_pos h1]
        exact ⟨rfl, rfl⟩
      · intro h1
        have h2 : ¬ (2 : Int) ^ (intSize - 1) ≤ v := by
          have : (0 : Int) < 2 ^ (intSize - 1) := by positivity
          omega
        rw [h, if_neg h2, if_pos h1]
        exact ⟨rfl, rfl⟩

/-- Witness of C6: on a 64-bit platform the counts "12", "abc",
"99999999999999999999" give 12, 0 and 9223372036854775807. -/
theorem C6_int_failure_policy_witness :
    (sampleRuntime bodyCounts).Query "q" = .ok "body" ∧
    Unmarshal (sampleRuntime bodyCounts) serviceCountMetric.field ⟨""⟩ "body" = .ok respCounts ∧
    ∃ m, queryServiceCount (sampleRuntime bodyCounts) 64 "q" = .returns ⟨some m, none⟩ ∧
      m.get "f1" = some 12 ∧ m.get "f2" = some 0 ∧ m.get "f3" = some 9223372036854775807 := by
  refine ⟨rfl, rfl, ?_⟩
  have hC := C6_int_failure_policy (sampleRuntime bodyCounts) 64 "q" "body"
    respCounts (Or.inr rfl) rfl rfl
  obtain ⟨m, hm⟩ := hC.1 (by simp [respCounts, wellShaped, valueString, index, assertString])
  obtain ⟨_, m2, hm2, h⟩ := hC.2 _ hm
  simp only [Option.some.injEq] at hm2
  subst hm2
  refine ⟨m, hm, ?_, ?_, ?_⟩
  · have h1 := h [] ⟨⟨"f1"⟩, [.num "0", .str "12"]⟩
      [⟨⟨"f2"⟩, [.num "0", .str "abc"]⟩, ⟨⟨"f3"⟩, [.num "0", .str "99999999999999999999"]⟩,
        ⟨⟨"f4"⟩, [.num "0", .str "1.5"]⟩, ⟨⟨"f5"⟩, [.num "0", .str ""]⟩] "12" rfl
      (by simp) rfl
    exact ((h1.2.2.2.2 12 (by decide)).1 (by norm_num) (by norm_num)).2
  · have h2 := h [⟨⟨"f1"⟩, [.num "0", .str "12"]⟩] ⟨⟨"f2"⟩, [.num "0", .str "abc"]⟩
      [⟨⟨"f3"⟩, [.num "0", .str "99999999999999999999"]⟩,
        ⟨⟨"f4"⟩, [.num "0", .str "1.5"]⟩, ⟨⟨"f5"⟩, [.num "0", .str ""]⟩] "abc" rfl
      (by simp) rfl
    exact h2.2.1 (by decide)
  · have h3 := h [⟨⟨"f1"⟩, [.num "0", .str "12"]⟩, ⟨⟨"f2"⟩, [.num "0", .str "abc"]⟩]
      ⟨⟨"f3"⟩, [.num "0", .str "99999999999999999999"]⟩
      [⟨⟨"f4"⟩, [.num "0", .str "1.5"]⟩, ⟨⟨"f5"⟩, [.num "0", .str ""]⟩]
      "99999999999999999999" rfl (by simp) rfl
    have h4 := ((h3.2.2.2.2 99999999999999999999 (by decide)).2.1 (by norm_num)).2
    rw [h4]
    norm_num

/-- C7 (code bug): a value tuple of the wrong shape makes the normalizers panic.
A one-element tuple makes each of the five query functions panic on the index
`Value[1]`; so do an empty and a missing tuple; a number as second element makes
the type assertion panic. No decode error is returned. -/
theorem C7_wrong_tuple_shape_panics :
    queryAFETrate (sampleRuntime bodyOneElement) "q" = .panics (.indexOutOfRange 1 1) ∧
    queryInvocRate (sampleRuntime bodyOneElement) "q" = .panics (.indexOutOfRange 1 1) ∧
    queryServiceCount (sampleRuntime bodyOneElement) 64 "q" = .panics (.indexOutOfRange 1 1) ∧
    queryCPUusage (sampleRuntime bodyOneElement) "q" = .panics (.indexOutOfRange 1 1) ∧
    queryRAMusage (sampleRuntime bodyOneElement) "q" = .panics (.indexOutOfRange 1 1) ∧
    queryAFETrate (sampleRuntime bodyEmptyTuple) "q" = .panics (.indexOutOfRange 1 0) ∧
    queryAFETrate (sampleRuntime bodyNoTuple) "q" = .panics (.indexOutOfRange 1 0) ∧
    queryAFETrate (sampleRuntime bodyNumberValue) "q" = .panics .interfaceConversion ∧
    queryServiceCount (sampleRuntime bodyNumberValue) 64 "q" = .panics .interfaceConversion :=
  ⟨rfl, rfl, rfl, rfl, rfl, rfl, rfl, rfl, rfl⟩

/-! ## Decoding a response envelope: result items without an expected label -/

theorem roundHalfEven_intCast (z : ℤ) : roundHalfEven (z : ℚ) = z := by
  simp [roundHalfEven]

theorem float64_intCast (n : ℤ) (h : n.natAbs < 2 ^ 53) : float64 (n : ℚ) = n := by
  unfold float64
  by_cases h0 : (n : ℚ) = 0
  · simp [h0]
  · rw [if_neg h0]
    simp only
    have habs : |(n : ℚ)| = ((n.natAbs : ℕ) : ℚ) := by
      rw [Nat.cast_natAbs, Int.cast_abs]
    rw [habs, Int.log_natCast]
    have hl : Nat.log 2 n.natAbs < 53 := by
      apply Nat.log_lt_of_lt_pow _ h
      intro hz
      apply h0
      rw [Int.natAbs_eq_zero] at hz
      simp [hz]
    obtain ⟨k, hk⟩ : ∃ k : ℕ, ((Nat.log 2 n.natAbs : ℕ) : ℤ) - 52 = -(k : ℤ) :=
      ⟨52 - Nat.log 2 n.natAbs, by omega⟩
    rw [hk, zpow_neg, zpow_natCast]
    have e : (n : ℚ) / ((2 : ℚ) ^ k)⁻¹ = ((n * 2 ^ k : ℤ) : ℚ) := by
      push_cast
      field_simp
    rw [e, roundHalfEven_intCast]
    push_cast
    field_simp

theorem Minutes_whole (N : ℕ) (h : (N : Int) * Minute < 2 ^ 63) :
    Duration.Minutes ((N : Int) * Minute) = (N : ℚ) := by
  have hN : N < 2 ^ 53 := by
    unfold Minute at h
    norm_num at h ⊢
    omega
  unfold Duration.Minutes
  have h1 : Int.tdiv ((N : Int) * Minute) Minute = N := by
    rw [Int.mul_tdiv_cancel _ (by decide)]
  have h2 : Int.tmod ((N : Int) * Minute) Minute = 0 := by
    rw [Int.mul_tmod_left]
  simp only [h1, h2, Int.cast_zero, Int.cast_natCast]
  have f0 : float64 ((0 : ℤ) : ℚ) = ((0 : ℤ) : ℚ) := float64_intCast 0 (by norm_num)
  have fN : float64 (((N : ℤ)) : ℚ) = ((N : ℤ) : ℚ) := float64_intCast N (by simpa using hN)
  simp only [Int.cast_zero, Int.cast_natCast] at f0 fN
  rw [f0, zero_div, f0, fN, add_zero, fN]

theorem fmtF0_natCast (N : ℕ) : fmtF0 (N : ℚ) = toString N := by
  unfold fmtF0
  have h1 : ¬ ((N : ℚ) < 0) := by simp
  have h2 : |(N : ℚ)| = ((N : ℤ) : ℚ) := by simp
  rw [if_neg h1, h2, roundHalfEven_intCast]
  simp

theorem strTimeSpan_whole (N : ℕ) (h : (N : Int) * Minute < 2 ^ 63) :
    strTimeSpan ((N : Int) * Minute) = toString N ++ "m" := by
  unfold strTimeSpan
  rw [Minutes_whole N h, fmtF0_natCast]


theorem digitChar_isDigit (k : Nat) (h : k < 10) : (Nat.digitChar k).isDigit = true := by
  interval_cases k <;> rfl

theorem toDigitsCore_isDigit (fuel n : Nat) (ds : List Char)
    (h : ∀ c ∈ ds, c.isDigit = true) :
    ∀ c ∈ Nat.toDigitsCore 10 fuel n ds, c.isDigit = true := by
  induction fuel generalizing n ds with
  | zero => simpa [Nat.toDigitsCore] using h
  | succ f ih =>
    simp only [Nat.toDigitsCore]
    have hd : ∀ c ∈ Nat.digitChar (n % 10) :: ds, c.isDigit = true := by
      intro c hc
      rcases List.mem_cons.mp hc with rfl | hc
      · exact digitChar_isDigit _ (Nat.mod_lt _ (by norm_num))
      · exact h c hc
    split
    · exact hd
    · exact ih _ _ hd

theorem toString_data_isDigit (n : Nat) : ∀ c ∈ (toString n).data, c.isDigit = true := by
  show ∀ c ∈ Nat.toDigits 10 n, c.isDigit = true
  exact toDigitsCore_isDigit _ _ [] (by simp)

theorem toString_data_ne_nil (n : Nat) : (toString n).data ≠ [] := by
  show Nat.toDigits 10 n ≠ []
  unfold Nat.toDigits
  simp only [Nat.toDigitsCore]
  split
  · simp
  · intro h
    have := Nat.toDigitsCore_lens_eq 10 n (n / 10) (Nat.digitChar (n % 10)) []
    rw [h] at this
    simp at this

theorem occurrences_nil_right (pat : List Char) : occurrences pat [] = 0 := rfl

theorem isPrefixOf_cons_ne (a b : Char) (as bs : List Char) (h : a ≠ b) :
    (a :: as).isPrefixOf (b :: bs) = false := by
  simp [List.isPrefixOf, h]

/-- A stretch of text without the first character of the pattern holds no
occurrence. -/
theorem occurrences_skip (h0 : Char) (pat xs ys : List Char)
    (hx : ∀ c ∈ xs, c ≠ h0) : occurrences (h0 :: pat) (xs ++ ys) = occurrences (h0 :: pat) ys := by
  induction xs with
  | nil => rfl
  | cons x xs ih =>
    have hne : h0 ≠ x := fun e => hx x (List.mem_cons_self _ _) e.symm
    rw [List.cons_append, occurrences, isPrefixOf_cons_ne _ _ _ _ hne]
    simp only [Bool.false_eq_true, if_false, zero_add]
    exact ih (fun c hc => hx c (List.mem_cons_of_mem _ hc))

theorem not_isPrefixOf_of_get? (pat text : List Char) (k : Nat) (a b : Char)
    (hp : pat.get? k = some a) (ht : text.get? k = some b) (hab : a ≠ b) :
    pat.isPrefixOf text = false := by
  rw [Bool.eq_false_iff]
  intro h
  rw [List.isPrefixOf_iff_prefix] at h
  obtain ⟨t, rfl⟩ := h
  have hk : k < pat.length := by
    by_contra hge
    rw [List.get?_eq_none.mpr (by omega)] at hp
    simp at hp
  rw [List.get?_eq_getElem?, List.getElem?_append_left hk, ← List.get?_eq_getElem?, hp] at ht
  exact hab (Option.some.inj ht)

/-- Inside the digits of a window, after their first position, the window does
not occur again. -/
theorem occurrences_in_digits (ds t rest : List Char) (m : Char)
    (hds : ∀ c ∈ ds, c ≠ m) (hne : ds ≠ [])
    (ht : t.length < ds.length) :
    occurrences (ds ++ [m]) (t ++ m :: rest) = occurrences (ds ++ [m]) rest := by
  induction t with
  | nil =>
    obtain ⟨d0, ds1, rfl⟩ := List.exists_cons_of_ne_nil hne
    have hd0 : d0 ≠ m := hds d0 (List.mem_cons_self _ _)
    rw [List.nil_append, List.cons_append, occurrences, isPrefixOf_cons_ne _ _ _ _ hd0]
    simp only [Bool.false_eq_true, if_false, zero_add]
  | cons x t ih =>
    have hlt : t.length < ds.length := by
      simp only [List.length_cons] at ht
      omega
    have hk : (x :: t).length < ds.length := ht
    obtain ⟨a, ha⟩ : ∃ a, ds.get? (x :: t).length = some a :=
      ⟨ds.get ⟨_, hk⟩, List.get?_eq_get hk⟩
    have hmem : a ∈ ds := List.get?_mem ha
    have hnp : (ds ++ [m]).isPrefixOf ((x :: t) ++ m :: rest) = false := by
      apply not_isPrefixOf_of_get? _ _ (x :: t).length a m
      · rw [List.get?_eq_getElem?, List.getElem?_append_left hk, ← List.get?_eq_getElem?, ha]
      · rw [List.get?_eq_getElem?, List.getElem?_append_right (le_refl _)]
        simp
      · exact hds a hmem
    simp only [List.cons_append] at hnp ⊢
    simp only [occurrences, hnp, Bool.false_eq_true, if_false, zero_add]
    exact ih hlt

/-- A window `ds ++ [m]` in the text: one occurrence, then those of the rest. -/
theorem occurrences_window (ds rest : List Char) (m : Char)
    (hds : ∀ c ∈ ds, c ≠ m) (hne : ds ≠ []) :
    occurrences (ds ++ [m]) (ds ++ m :: rest) = 1 + occurrences (ds ++ [m]) rest := by
  obtain ⟨d0, ds1, rfl⟩ := List.exists_cons_of_ne_nil hne
  have hp : (d0 :: ds1 ++ [m]).isPrefixOf (d0 :: ds1 ++ m :: rest) = true := by
    rw [List.isPrefixOf_iff_prefix]
    exact ⟨rest, by simp⟩
  have := occurrences_in_digits (d0 :: ds1) ds1 rest m hds (by simp) (by simp)
  simp only [List.cons_append] at hp this ⊢
  simp only [occurrences, hp, if_true, this]

theorem ne_of_isDigit {c d : Char} (hc : c.isDigit = false) (hd : d.isDigit = true) : c ≠ d := by
  rintro rfl
  rw [hc] at hd
  exact Bool.false_ne_true hd

theorem count_digits_eq_zero (ds : List Char) (hds : ∀ c ∈ ds, c.isDigit = true) (x : Char)
    (hx : x.isDigit = false) : ds.count x = 0 := by
  rw [List.count_eq_zero]
  intro hmem
  exact ne_of_isDigit hx (hds x hmem) rfl

theorem QueryAFET_query_whole (N : ℕ) (h : (N : Int) * Minute < 2 ^ 63) :
    QueryAFET.query ((N : Int) * Minute)
      = "rate(gateway_functions_seconds_sum[" ++ (toString N ++ "m") ++
        "]) / rate(gateway_functions_seconds_count[" ++ (toString N ++ "m") ++ "])" := by
  unfold QueryAFET.query
  rw [strTimeSpan_whole N h]

theorem occurrences_afet (N : ℕ) :
    occurrences (toString N ++ "m").data
      ("rate(gateway_functions_seconds_sum[" ++ (toString N ++ "m") ++
        "]) / rate(gateway_functions_seconds_count[" ++ (toString N ++ "m") ++ "])").data = 2 := by
  have hdig := toString_data_isDigit N
  obtain ⟨d0, ds1, hds⟩ := List.exists_cons_of_ne_nil (toString_data_ne_nil N)
  have hd0 : d0.isDigit = true := hdig d0 (by rw [hds]; exact List.mem_cons_self _ _)
  have hm : ∀ c ∈ (toString N).data, c ≠ 'm' := fun c hc =>
    (ne_of_isDigit (by decide) (hdig c hc)).symm
  have hA : ∀ c ∈ ("rate(gateway_functions_seconds_sum[" : String).data, c.isDigit = false := by
    decide
  have hB : ∀ c ∈ ("]) / rate(gateway_functions_seconds_count[" : String).data,
      c.isDigit = false := by decide
  have hC : ∀ c ∈ ("])" : String).data, c.isDigit = false := by decide
  have hwin := occurrences_window (toString N).data
  have hskip := occurrences_skip d0 (ds1 ++ ['m'])
  have e : ("rate(gateway_functions_seconds_sum[" ++ (toString N ++ "m") ++
        "]) / rate(gateway_functions_seconds_count[" ++ (toString N ++ "m") ++ "])").data
      = ("rate(gateway_functions_seconds_sum[" : String).data ++
        ((toString N).data ++ 'm' :: (("]) / rate(gateway_functions_seconds_count[" : String).data
          ++ ((toString N).data ++ 'm' :: ("])" : String).data))) := by
    simp [String.data_append]
  have e1 : (toString N ++ "m").data = (toString N).data ++ ['m'] := by
    simp [String.data_append]
  rw [e, e1]
  have hpat : (toString N).data ++ ['m'] = d0 :: (ds1 ++ ['m']) := by rw [hds]; rfl
  have s1 := hskip ("rate(gateway_functions_seconds_sum[" : String).data
    ((toString N).data ++ 'm' :: (("]) / rate(gateway_functions_seconds_count[" : String).data ++
      ((toString N).data ++ 'm' :: ("])" : String).data)))
    (fun c hc => ne_of_isDigit (hA c hc) hd0)
  have s2 := hwin (("]) / rate(gateway_functions_seconds_count[" : String).data ++
      ((toString N).data ++ 'm' :: ("])" : String).data)) 'm' hm (toString_data_ne_nil N)
  have s3 := hskip ("]) / rate(gateway_functions_seconds_count[" : String).data
    ((toString N).data ++ 'm' :: ("])" : String).data)
    (fun c hc => ne_of_isDigit (hB c hc) hd0)
  have s4 := hwin ("])" : String).data 'm' hm (toString_data_ne_nil N)
  have s5 := hskip ("])" : String).data [] (fun c hc => ne_of_isDigit (hC c hc) hd0)
  rw [List.append_nil, occurrences_nil_right] at s5
  rw [← hpat] at s1 s3 s5
  rw [s1, s2, s3, s4, s5]

theorem count_brackets_afet (N : ℕ) :
    ("rate(gateway_functions_seconds_sum[" ++ (toString N ++ "m") ++
        "]) / rate(gateway_functions_seconds_count[" ++ (toString N ++ "m") ++ "])").data.count '['
      = 2 ∧
    ("rate(gateway_functions_seconds_sum[" ++ (toString N ++ "m") ++
        "]) / rate(gateway_functions_seconds_count[" ++ (toString N ++ "m") ++ "])").data.count ']'
      = 2 := by
  have hdig := toString_data_isDigit N
  have c1 := count_digits_eq_zero _ hdig '[' (by decide)
  have c2 := count_digits_eq_zero _ hdig ']' (by decide)
  have a1 : ("rate(gateway_functions_seconds_sum[" : String).data.count '[' = 1 := by decide
  have a2 : ("rate(gateway_functions_seconds_sum[" : String).data.count ']' = 0 := by decide
  have b1 : ("]) / rate(gateway_functions_seconds_count[" : String).data.count '[' = 1 := by decide
  have b2 : ("]) / rate(gateway_functions_seconds_count[" : String).data.count ']' = 1 := by decide
  have d1 : ("])" : String).data.count '[' = 0 := by decide
  have d2 : ("])" : String).data.count ']' = 1 := by decide
  have m1 : ("m" : String).data.count '[' = 0 := by decide
  have m2 : ("m" : String).data.count ']' = 0 := by decide
  simp only [String.data_append, List.count_append, c1, c2, a1, a2, b1, b2, d1, d2, m1, m2]
  trivial


theorem scanDepth_sound (o c : Char) (hoc : o ≠ c) (s : List Char) (d e : Nat)
    (h : scanDepth o c s d = some e) :
    (∀ p, p <+: s → p.count c ≤ d + p.count o) ∧ d + s.count o = e + s.count c := by
  induction s generalizing d with
  | nil =>
    simp only [scanDepth, Option.some.injEq] at h
    subst h
    refine ⟨?_, rfl⟩
    intro p hp
    rw [List.prefix_nil] at hp
    subst hp
    simp
  | cons x xs ih =>
    simp only [scanDepth] at h
    have key : ∀ d1 k1 k2 : Nat, scanDepth o c xs d1 = some e →
        (∀ l : List Char, List.count c (x :: l) = List.count c l + k1) →
        (∀ l : List Char, List.count o (x :: l) = List.count o l + k2) →
        d1 + k1 = d + k2 →
        (∀ p, p <+: x :: xs → p.count c ≤ d + p.count o) ∧
          d + (x :: xs).count o = e + (x :: xs).count c := by
      intro d1 k1 k2 hs hc ho hd
      obtain ⟨h1, h2⟩ := ih _ hs
      constructor
      · intro p hp
        rcases List.prefix_cons_iff.mp hp with rfl | ⟨t, rfl, ht⟩
        · simp
        · have := h1 t ht
          rw [hc, ho]
          omega
      · rw [hc, ho]
        omega
    by_cases hxo : x = o
    · rw [if_pos hxo] at h
      have hxc : ¬ x = c := fun hc => hoc (hxo.symm.trans hc)
      exact key (d + 1) 0 1 h (fun l => by simp [List.count_cons, hxc])
        (fun l => by simp [List.count_cons, hxo]) rfl
    · rw [if_neg hxo] at h
      by_cases hxc : x = c
      · rw [if_pos hxc] at h
        by_cases hd : d = 0
        · simp [hd] at h
        · rw [if_neg hd] at h
          exact key (d - 1) 1 0 h (fun l => by simp [List.count_cons, hxc])
            (fun l => by simp [List.count_cons, hxo]) (by omega)
      · rw [if_neg hxc] at h
        exact key d 0 0 h (fun l => by simp [List.count_cons, hxc])
          (fun l => by simp [List.count_cons, hxo]) rfl

theorem Balanced_of_scanDepth (o c : Char) (hoc : o ≠ c) (s : List Char)
    (h : scanDepth o c s 0 = some 0) : Balanced o c s := by
  obtain ⟨h1, h2⟩ := scanDepth_sound o c hoc s 0 0 h
  exact ⟨fun p hp => by simpa using h1 p hp, by omega⟩

theorem scanDepth_append (o c : Char) (xs ys : List Char) (d : Nat) :
    scanDepth o c (xs ++ ys) d = (scanDepth o c xs d).bind (scanDepth o c ys) := by
  induction xs generalizing d with
  | nil => rfl
  | cons x xs ih =>
    simp only [List.cons_append, scanDepth]
    split_ifs <;> simp [ih]

theorem scanDepth_skip (o c : Char) (xs : List Char) (hxs : ∀ x ∈ xs, x ≠ o ∧ x ≠ c)
    (d : Nat) : scanDepth o c xs d = some d := by
  induction xs with
  | nil => rfl
  | cons x xs ih =>
    have hx := hxs x (List.mem_cons_self _ _)
    simp only [scanDepth, hx.1, hx.2, if_false]
    exact ih (fun y hy => hxs y (List.mem_cons_of_mem _ hy))

/-- A rendered window holds no parenthesis and no bracket. -/
theorem scanDepth_window (o c : Char) (ho : o.isDigit = false) (hc : c.isDigit = false)
    (hom : o ≠ 'm') (hcm : c ≠ 'm') (N : ℕ) (d : Nat) :
    scanDepth o c (toString N ++ "m").data d = some d := by
  apply scanDepth_skip
  intro x hx
  rw [String.data_append, List.mem_append] at hx
  rcases hx with hx | hx
  · have := toString_data_isDigit N x hx
    exact ⟨(ne_of_isDigit ho this).symm, (ne_of_isDigit hc this).symm⟩
  · have hxm : x = 'm' := by simpa using hx
    subst hxm
    exact ⟨hom.symm, hcm.symm⟩

theorem QueryRAMusage_query_whole (N : ℕ) (h : (N : Int) * Minute < 2 ^ 63) :
    QueryRAMusage.query ((N : Int) * Minute)
      = "(1 - ((avg_over_time(node_memory_MemFree_bytes[" ++ (toString N ++ "m") ++
        "]) + avg_over_time(node_memory_Cached_bytes[" ++ (toString N ++ "m") ++
        "]) + avg_over_time(node_memory_Buffers_bytes[" ++ (toString N ++ "m") ++
        "])) / avg_over_time(node_memory_MemTotal_bytes[" ++ (toString N ++ "m") ++ "])))" := by
  unfold QueryRAMusage.query
  rw [strTimeSpan_whole N h]

theorem scanDepth_ram (o c : Char) (ho : o.isDigit = false) (hc : c.isDigit = false)
    (hom : o ≠ 'm') (hcm : c ≠ 'm') (N : ℕ) (d0 d1 d2 d3 : Nat)
    (h0 : scanDepth o c ("(1 - ((avg_over_time(node_memory_MemFree_bytes[" : String).data 0
      = some d0)
    (h1 : scanDepth o c ("]) + avg_over_time(node_memory_Cached_bytes[" : String).data d0
      = some d1)
    (h2 : scanDepth o c ("]) + avg_over_time(node_memory_Buffers_bytes[" : String).data d1
      = some d2)
    (h3 : scanDepth o c ("])) / avg_over_time(node_memory_MemTotal_bytes[" : String).data d2
      = some d3)
    (h4 : scanDepth o c ("])))" : String).data d3 = some 0) :
    scanDepth o c ("(1 - ((avg_over_time(node_memory_MemFree_bytes[" ++ (toString N ++ "m") ++
        "]) + avg_over_time(node_memory_Cached_bytes[" ++ (toString N ++ "m") ++
        "]) + avg_over_time(node_memory_Buffers_bytes[" ++ (toString N ++ "m") ++
        "])) / avg_over_time(node_memory_MemTotal_bytes[" ++ (toString N ++ "m") ++ "])))").data 0
      = some 0 := by
  have hw := scanDepth_window o c ho hc hom hcm N
  rw [String.data_append, String.data_append, String.data_append, String.data_append,
    String.data_append, String.data_append, String.data_append, String.data_append]
  simp only [scanDepth_append, h0, h1, h2, h3, h4, hw, Option.some_bind]

theorem Balanced_ram (N : ℕ) :
    Balanced '(' ')' ("(1 - ((avg_over_time(node_memory_MemFree_bytes[" ++ (toString N ++ "m") ++
        "]) + avg_over_time(node_memory_Cached_bytes[" ++ (toString N ++ "m") ++
        "]) + avg_over_time(node_memory_Buffers_bytes[" ++ (toString N ++ "m") ++
        "])) / avg_over_time(node_memory_MemTotal_bytes[" ++ (toString N ++ "m") ++ "])))").data ∧
    Balanced '[' ']' ("(1 - ((avg_over_time(node_memory_MemFree_bytes[" ++ (toString N ++ "m") ++
        "]) + avg_over_time(node_memory_Cached_bytes[" ++ (toString N ++ "m") ++
        "]) + avg_over_time(node_memory_Buffers_bytes[" ++ (toString N ++ "m") ++
        "])) / avg_over_time(node_memory_MemTotal_bytes[" ++ (toString N ++ "m") ++ "])))").data := by
  constructor
  · apply Balanced_of_scanDepth _ _ (by decide)
    exact scanDepth_ram '(' ')' (by decide) (by decide) (by decide) (by decide) N 4 4 4 3
      (by decide) (by decide) (by decide) (by decide) (by decide)
  · apply Balanced_of_scanDepth _ _ (by decide)
    exact scanDepth_ram '[' ']' (by decide) (by decide) (by decide) (by decide) N 1 1 1 1
      (by decide) (by decide) (by decide) (by decide) (by decide)

/-- C9: average-execution-time query construction. For every window of a whole
number N of minutes that fits a `time.Duration`, the window is rendered as the
decimal numeral of N followed by "m"; QueryAFET builds exactly
`rate(gateway_functions_seconds_sum[<N>m]) / rate(gateway_functions_seconds_count[<N>m])`
and runs queryAFETrate on it; the rendered window occurs in the expression at
exactly two positions, and the expression has exactly two opening and two closing
brackets. -/
theorem C9_afet_query {F : Type} (rt : Runtime F) (N : ℕ) (h : (N : Int) * Minute < 2 ^ 63) :
    strTimeSpan ((N : Int) * Minute) = toString N ++ "m" ∧
    QueryAFET.query ((N : Int) * Minute)
      = "rate(gateway_functions_seconds_sum[" ++ (toString N ++ "m") ++
        "]) / rate(gateway_functions_seconds_count[" ++ (toString N ++ "m") ++ "])" ∧
    QueryAFET rt ((N : Int) * Minute)
      = queryAFETrate rt ("rate(gateway_functions_seconds_sum[" ++ (toString N ++ "m") ++
        "]) / rate(gateway_functions_seconds_count[" ++ (toString N ++ "m") ++ "])") ∧
    occurrences (toString N ++ "m").data (QueryAFET.query ((N : Int) * Minute)).data = 2 ∧
    (QueryAFET.query ((N : Int) * Minute)).data.count '[' = 2 ∧
    (QueryAFET.query ((N : Int) * Minute)).data.count ']' = 2 := by
  have hq := QueryAFET_query_whole N h
  refine ⟨strTimeSpan_whole N h, hq, ?_, ?_, ?_, ?_⟩
  · unfold QueryAFET
    rw [hq]
  · rw [hq]
    exact occurrences_afet N
  · rw [hq]
    exact (count_brackets_afet N).1
  · rw [hq]
    exact (count_brackets_afet N).2

/-- Witness of C9: a 5-minute window is rendered "5m", and "5m" occurs exactly
twice in the expression QueryAFET builds. -/
theorem C9_afet_query_witness :
    ((5 : ℕ) : Int) * Minute < 2 ^ 63 ∧
    strTimeSpan (((5 : ℕ) : Int) * Minute) = "5m" ∧
    QueryAFET.query (((5 : ℕ) : Int) * Minute)
      = "rate(gateway_functions_seconds_sum[5m]) / rate(gateway_functions_seconds_count[5m])" ∧
    occurrences "5m".data (QueryAFET.query (((5 : ℕ) : Int) * Minute)).data = 2 :=
  have h := C9_afet_query (sampleRuntime .null) 5 (by decide)
  ⟨by decide, h.1, h.2.1, h.2.2.2.1⟩

/-- C10: RAM-usage query construction. For every window of a whole number N of
minutes that fits a `time.Duration` (N = 0 included), QueryRAMusage builds exactly
`(1 - ((avg_over_time(node_memory_MemFree_bytes[Q]) + avg_over_time(node_memory_Cached_bytes[Q]) + avg_over_time(node_memory_Buffers_bytes[Q])) / avg_over_time(node_memory_MemTotal_bytes[Q])))`
with the same `Q`, the decimal numeral of N followed by "m", in the four
sub-terms, and runs queryRAMusage on it; the expression is balanced in its
parentheses and in its brackets: every prefix has at least as many opening as
closing ones, and the totals are equal. -/
theorem C10_ram_query {F : Type} (rt : Runtime F) (N : ℕ) (h : (N : Int) * Minute < 2 ^ 63) :
    QueryRAMusage.query ((N : Int) * Minute)
      = "(1 - ((avg_over_time(node_memory_MemFree_bytes[" ++ (toString N ++ "m") ++
        "]) + avg_over_time(node_memory_Cached_bytes[" ++ (toString N ++ "m") ++
        "]) + avg_over_time(node_memory_Buffers_bytes[" ++ (toString N ++ "m") ++
        "])) / avg_over_time(node_memory_MemTotal_bytes[" ++ (toString N ++ "m") ++ "])))" ∧
    QueryRAMusage rt ((N : Int) * Minute)
      = queryRAMusage rt (QueryRAMusage.query ((N : Int) * Minute)) ∧
    Balanced '(' ')' (QueryRAMusage.query ((N : Int) * Minute)).data ∧
    Balanced '[' ']' (QueryRAMusage.query ((N : Int) * Minute)).data := by
  have hq := QueryRAMusage_query_whole N h
  refine ⟨hq, rfl, ?_, ?_⟩
  · rw [hq]
    exact (Balanced_ram N).1
  · rw [hq]
    exact (Balanced_ram N).2

/-- Witness of C10: a window of 0 gives "0m" in the four sub-terms of a balanced
expression. -/
theorem C10_ram_query_witness :
    ((0 : ℕ) : Int) * Minute < 2 ^ 63 ∧
    QueryRAMusage.query (((0 : ℕ) : Int) * Minute)
      = "(1 - ((avg_over_time(node_memory_MemFree_bytes[0m]) + avg_over_time(node_memory_Cached_bytes[0m]) + avg_over_time(node_memory_Buffers_bytes[0m])) / avg_over_time(node_memory_MemTotal_bytes[0m])))" ∧
    Balanced '(' ')' (QueryRAMusage.query (((0 : ℕ) : Int) * Minute)).data ∧
    Balanced '[' ']' (QueryRAMusage.query (((0 : ℕ) : Int) * Minute)).data :=
  have h := C10_ram_query (sampleRuntime .null) 0 (by decide)
  ⟨by decide, h.1, h.2.2.1, h.2.2.2⟩

end Ofpromq
